import Mathlib

/-!
# Crypto portfolio tracker: the price synchronisation worker

A shallow embedding of `internal/services/worker.go` (`PriceWorker.syncPrices`),
`internal/services/coingecko.go` (`CoinGeckoClient.FetchTopTokens`),
`internal/db/elasticsearch.go` (`ElasticSearch.IndexToken`) and of the two
ScyllaDB tables declared in `internal/db/scylla.go` (`ScyllaDB.InitSchema`).

Modelling conventions.

* `float64` values are carried as their IEEE-754 bit pattern (`Float64 := Nat`); the
  code under study only copies them, it never computes with them.
* `time.Time` values are instants with nanosecond precision (`Time`): the millisecond an
  instant falls in and the nanoseconds into it. A CQL `timestamp` column keeps the
  millisecond only (`Millis`); a JSON document keeps the whole instant.
* The external world of one sync cycle is an explicit environment `CycleEnv`: what the
  HTTP client answers, what `json.Unmarshal` makes of a body, what `time.Now()` reads,
  and, for the i-th token of the batch, what each store call answers if it is made.
* A ScyllaDB statement that returns no error has been applied; a store call that returns an
  error leaves the store as it was. An Elasticsearch index request that returns no error
  has a reply with an HTTP status; the document is stored exactly when the status is 2xx.
* An `INSERT` into a ScyllaDB table and an Elasticsearch `Index` with a document id are
  upserts on the primary key, respectively the document id.
* Every store call the worker makes is recorded, with its outcome, in a trace
  (`SyncState.calls`); every `log.Printf` line is recorded in `SyncState.log`.
* A Go panic is the result `none`.
-/

namespace CryptoTracker

/-! ## Data model (`internal/models/crypto.go`) -/

/-- Bit pattern of a Go `float64`. -/
abbrev Float64 := Nat

/-- Milliseconds since the epoch: the precision of a CQL `timestamp` column. -/
abbrev Millis := Nat

/-- Instant of a Go `time.Time`, with nanosecond precision: the millisecond it falls in and
the nanoseconds into that millisecond. -/
structure Time where
  millis : Millis
  nanos : Fin 1000000
  deriving DecidableEq, Repr

/-- A numeral `n` read as an instant is the start of millisecond `n`. -/
instance (n : Nat) : OfNat Time n := ⟨{ millis := n, nanos := 0 }⟩

/-- The Go struct `models.Token`. -/
structure Token where
  ID : String
  Symbol : String
  Name : String
  CurrentPrice : Float64
  MarketCap : Float64
  Volume24h : Float64
  UpdatedAt : Time
  deriving DecidableEq, Repr

/-- The Go struct `services.CoinGeckoToken`, one entry of the upstream response. -/
structure CoinGeckoToken where
  ID : String
  Symbol : String
  Name : String
  CurrentPrice : Float64
  MarketCap : Float64
  TotalVolume : Float64
  PriceChange24h : Float64
  deriving DecidableEq, Repr

/-! ## Keyed tables -/

/-- Read the row stored under key `k`. -/
def tableGet {κ ρ : Type} [DecidableEq κ] : List (κ × ρ) → κ → Option ρ
  | [], _ => none
  | (k', r) :: rest, k => if k' = k then some r else tableGet rest k

/-- Upsert: overwrite the row stored under `k`, or add it when the key is new. -/
def tablePut {κ ρ : Type} [DecidableEq κ] : List (κ × ρ) → κ → ρ → List (κ × ρ)
  | [], k, r => [(k, r)]
  | (k', r') :: rest, k, r =>
    if k' = k then (k, r) :: rest else (k', r') :: tablePut rest k r

/-- Whether some row is stored under key `k`. -/
def tableHas {κ ρ : Type} [DecidableEq κ] (t : List (κ × ρ)) (k : κ) : Bool :=
  t.any (fun e => decide (e.1 = k))

/-! ## The stores (`internal/db/scylla.go`, `internal/db/elasticsearch.go`) -/

/-- A row of the ScyllaDB table `tokens` (`id text PRIMARY KEY`, six more columns, the last
of CQL type `timestamp`). -/
structure TokenRow where
  id : String
  symbol : String
  name : String
  current_price : Float64
  market_cap : Float64
  volume_24h : Float64
  updated_at : Millis
  deriving DecidableEq, Repr

/-- A dynamically typed Go value (of the empty interface type) as it occurs in a document. -/
inductive Value where
  | str (s : String)
  | double (f : Float64)
  | time (t : Time)
  deriving DecidableEq, Repr

/-- A Go map from strings to dynamically typed values: the document payload handed to
Elasticsearch. -/
abbrev Doc := List (String × Value)

/-- The three persistent collections the worker writes. -/
structure Stores where
  /-- ScyllaDB table `tokens`, primary key `id`. -/
  tokens : List (String × TokenRow)
  /-- ScyllaDB table `price_history`, primary key `(token_id, timestamp)` with `timestamp`
  of CQL type `timestamp`, value `price`. -/
  price_history : List ((String × Millis) × Float64)
  /-- Elasticsearch index `crypto_tokens`, keyed by document id. -/
  crypto_tokens : List (String × Doc)
  deriving DecidableEq, Repr

/-- What the Elasticsearch client does with one `IndexToken` call. -/
inductive IndexOutcome where
  /-- Call `json.NewEncoder(&buf).Encode(token)` returns an error. -/
  | encodeError
  /-- Call `es.Client.Index(...)` returns an error. -/
  | requestError
  /-- Call `es.Client.Index(...)` returns no error. -/
  | indexed
  deriving DecidableEq, Repr

/-- What the stores answer to the three writes of one loop iteration, if they are made. -/
structure Outcome where
  /-- The `INSERT INTO tokens` returns no error. -/
  scylla : Bool
  /-- The outcome of `IndexToken`. -/
  es : IndexOutcome
  /-- The `INSERT INTO price_history` returns no error. -/
  history : Bool
  /-- The HTTP status of the reply `res` when `es.Client.Index(...)` returns no error. -/
  esStatus : Nat := 201
  deriving DecidableEq, Repr

/-- The reply to an index request has a 2xx status: Elasticsearch has stored the document
(`res.IsError()` would be false). -/
def esAccepted (status : Nat) : Bool :=
  decide (200 ≤ status) && decide (status < 300)

/-- Embedding of `ElasticSearch.IndexToken`: encode the document, then send the index
request for the document id `token["id"].(string)`. The result is `none` when the type
assertion panics, otherwise the new index contents and whether the returned error is `nil`.
The function returns `nil` whenever the request itself returns no error: it closes the reply
without reading its status `status`, so a request that Elasticsearch answers with a 4xx or
5xx status returns `nil` although nothing has been stored. -/
def IndexToken (es : List (String × Doc)) (token : Doc) (o : IndexOutcome) (status : Nat) :
    Option (List (String × Doc) × Bool) :=
  match o with
  | .encodeError => some (es, false)
  | o' =>
    match tableGet token "id" with
    | some (Value.str id) =>
      match o' with
      | .indexed => some (if esAccepted status = true then tablePut es id token else es, true)
      | _ => some (es, false)
    | _ => none

/-! ## The feed client (`internal/services/coingecko.go`) -/

/-- The Go struct `services.CoinGeckoClient` (the HTTP client itself is in `CycleEnv`). -/
structure CoinGeckoClient where
  BaseURL : String
  deriving DecidableEq, Repr

/-- Constructor `NewCoinGeckoClient`. -/
def NewCoinGeckoClient : CoinGeckoClient :=
  { BaseURL := "https://api.coingecko.com/api/v3" }

/-- What `HTTPClient.Get` answers: a transport error, or a response with its status code,
the bytes `io.ReadAll` obtains from its body and whether `io.ReadAll` returns an error. -/
inductive HttpResult where
  | transportError
  | response (StatusCode : Int) (body : String) (readErr : Bool)
  deriving DecidableEq, Repr

/-- The four errors `FetchTopTokens` can return. -/
inductive FetchError where
  /-- Message "failed to fetch tokens". -/
  | fetchFailed
  /-- Message "API error: body (status code)". -/
  | apiError (body : String) (status : Int)
  /-- Message "failed to read response". -/
  | readFailed
  /-- Message "failed to parse JSON". -/
  | parseFailed
  deriving DecidableEq, Repr

/-- The request URL built by `FetchTopTokens`. -/
def topTokensURL (baseURL : String) (limit : Int) : String :=
  baseURL ++ "/coins/markets?vs_currency=usd&order=market_cap_desc&per_page="
    ++ toString limit ++ "&page=1&sparkline=false"

/-- The conversion loop of `FetchTopTokens`: the k-th appended token is stamped with the
k-th reading of `time.Now()`. -/
def convertTokens (now : Nat → Time) : Nat → List CoinGeckoToken → List Token
  | _, [] => []
  | k, cg :: rest =>
    { ID := cg.ID, Symbol := cg.Symbol, Name := cg.Name, CurrentPrice := cg.CurrentPrice,
      MarketCap := cg.MarketCap, Volume24h := cg.TotalVolume, UpdatedAt := now k }
      :: convertTokens now (k + 1) rest

/-- The external world during one sync cycle. -/
structure CycleEnv where
  /-- Answer of `HTTPClient.Get url`. -/
  get : String → HttpResult
  /-- Result of `json.Unmarshal body` into a slice of `CoinGeckoToken`; `none` is a parse
  error. -/
  unmarshal : String → Option (List CoinGeckoToken)
  /-- The k-th reading of `time.Now()` during the conversion loop. -/
  now : Nat → Time
  /-- The answers of the stores to the writes of the i-th loop iteration. -/
  out : Nat → Outcome

/-- Embedding of `CoinGeckoClient.FetchTopTokens`. -/
def FetchTopTokens (c : CoinGeckoClient) (env : CycleEnv) (limit : Int) :
    Except FetchError (List Token) :=
  match env.get (topTokensURL c.BaseURL limit) with
  | .transportError => .error .fetchFailed
  | .response status body readErr =>
    if status ≠ 200 then .error (.apiError body status)
    else if readErr then .error .readFailed
    else
      match env.unmarshal body with
      | none => .error .parseFailed
      | some cgTokens => .ok (convertTokens env.now 0 cgTokens)

/-! ## The worker (`internal/services/worker.go`) -/

/-- One store call made by the worker, with its outcome (`ok = true`: no error). -/
inductive StoreCall where
  /-- Statement `INSERT INTO tokens (...) VALUES (?, ?, ?, ?, ?, ?, ?)`. -/
  | insertToken (row : TokenRow) (ok : Bool)
  /-- Call `ElasticSearch.IndexToken(ctx, tokenMap)`. -/
  | indexToken (doc : Doc) (ok : Bool)
  /-- Statement `INSERT INTO price_history (token_id, timestamp, price) VALUES (?, ?, ?)`,
  with the values bound to it. -/
  | insertHistory (token_id : String) (timestamp : Time) (price : Float64) (ok : Bool)
  deriving DecidableEq, Repr

/-- The lines `syncPrices` writes to the log. -/
inductive LogLine where
  /-- Line "Syncing prices from CoinGecko...". -/
  | syncing
  /-- Line "Failed to fetch tokens: err". -/
  | fetchFailed (e : FetchError)
  /-- Line "Failed to update id in ScyllaDB: err". -/
  | scyllaFailed (id : String)
  /-- Line "Failed to index id in ElasticSearch: err". -/
  | esFailed (id : String)
  /-- Line "Failed to save price history for id: err". -/
  | historyFailed (id : String)
  /-- Line "Synced successCount/len(tokens) tokens". -/
  | synced (successCount total : Nat)
  deriving DecidableEq, Repr

/-- The state threaded through the loop of `syncPrices`. -/
structure SyncState where
  stores : Stores
  calls : List StoreCall
  log : List LogLine
  successCount : Nat
  deriving DecidableEq, Repr

/-- The row the `INSERT INTO tokens` statement writes from the values bound to it, in column
order; the driver encodes the `time.Time` bound to `updated_at` as a CQL `timestamp`, which
keeps its millisecond. -/
def tokenRow (token : Token) : TokenRow :=
  { id := token.ID, symbol := token.Symbol, name := token.Name,
    current_price := token.CurrentPrice, market_cap := token.MarketCap,
    volume_24h := token.Volume24h, updated_at := token.UpdatedAt.millis }

/-- The map literal `tokenMap` built for Elasticsearch. -/
def tokenMap (token : Token) : Doc :=
  [("id", .str token.ID), ("symbol", .str token.Symbol), ("name", .str token.Name),
   ("current_price", .double token.CurrentPrice), ("market_cap", .double token.MarketCap),
   ("volume_24h", .double token.Volume24h), ("updated_at", .time token.UpdatedAt)]

/-- The body of the `for _, token := range tokens` loop of `syncPrices`. -/
def processToken (o : Outcome) (st : SyncState) (token : Token) : Option SyncState :=
  -- Update ScyllaDB
  if o.scylla = false then
    some { st with
      calls := st.calls ++ [.insertToken (tokenRow token) false]
      log := st.log ++ [.scyllaFailed token.ID] }
  else
    let st1 : SyncState := { st with
      stores := { st.stores with tokens := tablePut st.stores.tokens token.ID (tokenRow token) }
      calls := st.calls ++ [.insertToken (tokenRow token) true] }
    -- Update ElasticSearch
    match IndexToken st1.stores.crypto_tokens (tokenMap token) o.es o.esStatus with
    | none => none
    | some (_, false) =>
      some { st1 with
        calls := st1.calls ++ [.indexToken (tokenMap token) false]
        log := st1.log ++ [.esFailed token.ID] }
    | some (es', true) =>
      let st2 : SyncState := { st1 with
        stores := { st1.stores with crypto_tokens := es' }
        calls := st1.calls ++ [.indexToken (tokenMap token) true] }
      -- Save to price_history
      let st3 : SyncState :=
        if o.history = false then
          { st2 with
            calls := st2.calls ++
              [.insertHistory token.ID token.UpdatedAt token.CurrentPrice false]
            log := st2.log ++ [.historyFailed token.ID] }
        else
          { st2 with
            stores := { st2.stores with
              price_history :=
                tablePut st2.stores.price_history (token.ID, token.UpdatedAt.millis)
                  token.CurrentPrice }
            calls := st2.calls ++
              [.insertHistory token.ID token.UpdatedAt token.CurrentPrice true] }
      some { st3 with successCount := st3.successCount + 1 }

/-- The `for _, token := range tokens` loop of `syncPrices`; `out 0` answers the writes of
the first remaining token. -/
def syncLoop : List Token → (Nat → Outcome) → SyncState → Option SyncState
  | [], _, st => some st
  | token :: rest, out, st =>
    match processToken (out 0) st token with
    | none => none
    | some st' => syncLoop rest (fun i => out (i + 1)) st'

/-- The Go struct `services.PriceWorker` (the store handles are the `Stores` argument);
`Interval` is a `time.Duration`, a signed number of nanoseconds. -/
structure PriceWorker where
  CoinGecko : CoinGeckoClient
  Interval : Int
  deriving DecidableEq, Repr

/-- Constructor `NewPriceWorker`. -/
def NewPriceWorker (interval : Int) : PriceWorker :=
  { CoinGecko := NewCoinGeckoClient, Interval := interval }

/-- What one sync cycle leaves behind: the stores, the store calls it made, in order, and
the lines it logged. -/
structure CycleResult where
  stores : Stores
  calls : List StoreCall
  log : List LogLine
  deriving DecidableEq, Repr

/-- Embedding of `PriceWorker.syncPrices`: one sync cycle on the stores `s`. -/
def syncPrices (w : PriceWorker) (env : CycleEnv) (s : Stores) : Option CycleResult :=
  match FetchTopTokens w.CoinGecko env 10 with
  | .error e => some { stores := s, calls := [], log := [.syncing, .fetchFailed e] }
  | .ok tokens =>
    match syncLoop tokens env.out
        { stores := s, calls := [], log := [.syncing], successCount := 0 } with
    | none => none
    | some st =>
      some { stores := st.stores, calls := st.calls,
             log := st.log ++ [.synced st.successCount tokens.length] }

/-- What the `select` of `Start` receives. -/
inductive Event where
  /-- A value from `ticker.C`; `env` is the external world during the cycle it triggers. -/
  | tick (env : CycleEnv)
  /-- The closing of `ctx.Done()`. -/
  | done

/-- Where the goroutine running `Start` is. -/
inductive WorkerPhase where
  /-- Blocked in the `select`, waiting for the ticker or for cancellation. -/
  | idle
  /-- Returned from `Start`. -/
  | stopped
  deriving DecidableEq, Repr

/-- The lines `Start` itself writes to the log. -/
inductive StartLine where
  /-- Line "Price worker started (interval: ...)". -/
  | started (interval : Int)
  /-- Line "Price worker stopped". -/
  | stopped
  deriving DecidableEq, Repr

/-- The state of the worker goroutine: where it is, the stores, the sync cycles it has run
so far, in order, and the lines `Start` has logged. -/
structure WorkerState where
  phase : WorkerPhase
  stores : Stores
  cycles : List CycleResult
  log : List StartLine
  deriving DecidableEq, Repr

/-- One pass through the `for` loop of `Start`: the `select` receives `e`. A tick runs
`syncPrices`; a cancellation logs and returns. Once `Start` has returned nothing happens any
more. -/
def selectStep (w : PriceWorker) (st : WorkerState) (e : Event) : Option WorkerState :=
  match st.phase with
  | .stopped => some st
  | .idle =>
    match e with
    | .tick env =>
      match syncPrices w env st.stores with
      | none => none
      | some r => some { st with stores := r.stores, cycles := st.cycles ++ [r] }
    | .done => some { st with phase := .stopped, log := st.log ++ [.stopped] }

/-- The `for` loop of `Start` over the events its `select` receives, in order. -/
def selectLoop (w : PriceWorker) : List Event → WorkerState → Option WorkerState
  | [], st => some st
  | e :: rest, st =>
    match selectStep w st e with
    | none => none
    | some st' => selectLoop w rest st'

/-- Embedding of `PriceWorker.Start`: create the ticker, log the start, run the initial sync
in the world `env0`, then loop over the events. `time.NewTicker(w.Interval)` panics when the
interval is not positive, before anything else happens. -/
def Start (w : PriceWorker) (env0 : CycleEnv) (events : List Event) (s : Stores) :
    Option WorkerState :=
  if w.Interval ≤ 0 then none
  else
    match syncPrices w env0 s with
    | none => none
    | some r =>
      selectLoop w events
        { phase := .idle, stores := r.stores, cycles := [r], log := [.started w.Interval] }

/-! ## Derived notions used to state and prove the properties -/

/-- The outcomes from position `n` on. -/
def shiftOut (n : Nat) (out : Nat → Outcome) : Nat → Outcome :=
  fun i => out (i + n)

/-- The outcomes with position `k` left out. -/
def dropOut (k : Nat) (out : Nat → Outcome) : Nat → Outcome :=
  fun i => if i < k then out i else out (i + 1)

/-- Every store call succeeds. -/
def allOk : Nat → Outcome :=
  fun _ => { scylla := true, es := .indexed, history := true }

/-- The store calls of one loop iteration. -/
def tokenCalls (o : Outcome) (token : Token) : List StoreCall :=
  if o.scylla = false then [.insertToken (tokenRow token) false]
  else if o.es = .indexed then
    [.insertToken (tokenRow token) true, .indexToken (tokenMap token) true,
     .insertHistory token.ID token.UpdatedAt token.CurrentPrice o.history]
  else [.insertToken (tokenRow token) true, .indexToken (tokenMap token) false]

/-- The lines logged by one loop iteration. -/
def tokenLog (o : Outcome) (token : Token) : List LogLine :=
  if o.scylla = false then [.scyllaFailed token.ID]
  else if o.es = .indexed then
    (if o.history = false then [.historyFailed token.ID] else [])
  else [.esFailed token.ID]

/-- The increment of `successCount` in one loop iteration. -/
def tokenCount (o : Outcome) : Nat :=
  if o.scylla = false then 0 else if o.es = .indexed then 1 else 0

/-- The stores after one loop iteration. -/
def tokenStores (o : Outcome) (s : Stores) (token : Token) : Stores :=
  if o.scylla = false then s
  else if o.es = .indexed then
    { tokens := tablePut s.tokens token.ID (tokenRow token)
      crypto_tokens :=
        if esAccepted o.esStatus = true then
          tablePut s.crypto_tokens token.ID (tokenMap token)
        else s.crypto_tokens
      price_history :=
        if o.history = false then s.price_history
        else tablePut s.price_history (token.ID, token.UpdatedAt.millis) token.CurrentPrice }
  else { s with tokens := tablePut s.tokens token.ID (tokenRow token) }

/-- The store calls of the whole loop, in order. -/
def loopCalls : List Token → (Nat → Outcome) → List StoreCall
  | [], _ => []
  | token :: rest, out => tokenCalls (out 0) token ++ loopCalls rest (shiftOut 1 out)

/-- The lines logged by the whole loop, in order. -/
def loopLog : List Token → (Nat → Outcome) → List LogLine
  | [], _ => []
  | token :: rest, out => tokenLog (out 0) token ++ loopLog rest (shiftOut 1 out)

/-- The value of `successCount` after the whole loop. -/
def loopCount : List Token → (Nat → Outcome) → Nat
  | [], _ => 0
  | _ :: rest, out => tokenCount (out 0) + loopCount rest (shiftOut 1 out)

/-- The stores after the whole loop. -/
def loopStores : List Token → (Nat → Outcome) → Stores → Stores
  | [], _, s => s
  | token :: rest, out, s => loopStores rest (shiftOut 1 out) (tokenStores (out 0) s token)

/-- The state in which `syncPrices` enters its loop. -/
def loopStart (s : Stores) : SyncState :=
  { stores := s, calls := [], log := [.syncing], successCount := 0 }

/-- The feed fetch fails: a transport error, a status other than 200, an unreadable body, or
a body that does not parse. -/
def feedFails (c : CoinGeckoClient) (env : CycleEnv) (limit : Int) : Prop :=
  env.get (topTokensURL c.BaseURL limit) = .transportError ∨
  ∃ status body readErr, env.get (topTokensURL c.BaseURL limit) = .response status body readErr ∧
    (status ≠ 200 ∨ readErr = true ∨ env.unmarshal body = none)

/-- The number of positions `i < n` at which `p` holds. -/
def countPositions (n : Nat) (p : Nat → Bool) : Nat :=
  (List.range n).countP p

/-- At position `i` all three steps succeed: upsert, index write and history append. -/
def allThreeOk (out : Nat → Outcome) (i : Nat) : Bool :=
  (out i).scylla && decide ((out i).es = .indexed) && (out i).history

/-- At position `i` the upsert and the index write succeed and the history append fails. -/
def historyOnlyFails (out : Nat → Outcome) (i : Nat) : Bool :=
  (out i).scylla && decide ((out i).es = .indexed) && !(out i).history

/-- At position `i` the upsert and the index write succeed. -/
def upsertAndIndexOk (out : Nat → Outcome) (i : Nat) : Bool :=
  (out i).scylla && decide ((out i).es = .indexed)

/-- A sequence of sync cycles, one per environment: each cycle runs on the stores the
previous one left; the result lists what each cycle did. -/
def runCycles (w : PriceWorker) : List CycleEnv → Stores → Option (List CycleResult)
  | [], _ => some []
  | env :: envs, s =>
    match syncPrices w env s with
    | none => none
    | some r =>
      match runCycles w envs r.stores with
      | none => none
      | some rs => some (r :: rs)

/-- The batch a cycle fetches (empty when the fetch fails). -/
def fetchedBatch (w : PriceWorker) (env : CycleEnv) : List Token :=
  match FetchTopTokens w.CoinGecko env 10 with
  | .ok tokens => tokens
  | .error _ => []

/-- The call is a history append for `id` that returned no error. -/
def isHistoryAppend (id : String) : StoreCall → Bool
  | .insertHistory token_id _ _ true => decide (token_id = id)
  | _ => false

/-- The call is a snapshot upsert for `id` that returned no error. -/
def isUpsertOk (id : String) : StoreCall → Bool
  | .insertToken row true => decide (row.id = id)
  | _ => false

/-- The number of history points appended for `id` over the cycles. -/
def historyAppended (id : String) (rs : List CycleResult) : Nat :=
  (rs.map (fun r => r.calls.countP (isHistoryAppend id))).sum

/-- The number of successful snapshot upserts for `id` over the cycles. -/
def upsertsSucceeded (id : String) (rs : List CycleResult) : Nat :=
  (rs.map (fun r => r.calls.countP (isUpsertOk id))).sum

/-- The number of cycles in which a snapshot upsert for `id` succeeded. -/
def cyclesWithUpsert (id : String) (rs : List CycleResult) : Nat :=
  rs.countP (fun r => r.calls.any (isUpsertOk id))

/-- The number of entries of the batch that carry the id `id`. -/
def occurrences (id : String) (tokens : List Token) : Nat :=
  tokens.countP (fun t => decide (t.ID = id))

/-- Upsert the key-value pairs of a list, in order. -/
def putAll {κ ρ : Type} [DecidableEq κ] (t : List (κ × ρ)) (kvs : List (κ × ρ)) : List (κ × ρ) :=
  kvs.foldl (fun acc kv => tablePut acc kv.1 kv.2) t

/-- The value the last pair with key `k` carries, if there is such a pair. -/
def lastPut {κ ρ : Type} [DecidableEq κ] : List (κ × ρ) → κ → Option ρ
  | [], _ => none
  | (k', v) :: rest, k =>
    match lastPut rest k with
    | some v' => some v'
    | none => if k' = k then some v else none

/-- The document carries the same values as the row for the seven snapshot fields: the
instant in the document is the instant the row keeps, the start of its millisecond. -/
def docMatchesRow (doc : Doc) (row : TokenRow) : Prop :=
  tableGet doc "id" = some (.str row.id) ∧
  tableGet doc "symbol" = some (.str row.symbol) ∧
  tableGet doc "name" = some (.str row.name) ∧
  tableGet doc "current_price" = some (.double row.current_price) ∧
  tableGet doc "market_cap" = some (.double row.market_cap) ∧
  tableGet doc "volume_24h" = some (.double row.volume_24h) ∧
  tableGet doc "updated_at" = some (.time { millis := row.updated_at, nanos := 0 })

/-- The document carries the same values as the row for the six fields id, symbol, name,
current price, market cap and 24h volume, and the row keeps the millisecond of the instant
the document carries as `updated_at`. -/
def docMirrorsRow (doc : Doc) (row : TokenRow) : Prop :=
  tableGet doc "id" = some (.str row.id) ∧
  tableGet doc "symbol" = some (.str row.symbol) ∧
  tableGet doc "name" = some (.str row.name) ∧
  tableGet doc "current_price" = some (.double row.current_price) ∧
  tableGet doc "market_cap" = some (.double row.market_cap) ∧
  tableGet doc "volume_24h" = some (.double row.volume_24h) ∧
  ∃ t : Time, tableGet doc "updated_at" = some (.time t) ∧ row.updated_at = t.millis

/-- The snapshot rows a batch upserts, keyed by id. -/
def snapshotPuts (tokens : List Token) : List (String × TokenRow) :=
  tokens.map (fun t => (t.ID, tokenRow t))

/-- The documents a batch indexes, keyed by document id. -/
def documentPuts (tokens : List Token) : List (String × Doc) :=
  tokens.map (fun t => (t.ID, tokenMap t))

/-- The history points a batch appends, keyed by (token id, timestamp). -/
def historyPuts (tokens : List Token) : List ((String × Millis) × Float64) :=
  tokens.map (fun t => ((t.ID, t.UpdatedAt.millis), t.CurrentPrice))

/-- The stores a sequence of cycle results leaves, starting from `s`. -/
def storesAfter : Stores → List CycleResult → Stores
  | s, [] => s
  | _, r :: rs => storesAfter r.stores rs

/-- All three writes of the iteration return no error. -/
def writesOk (o : Outcome) : Prop :=
  o.scylla = true ∧ o.es = .indexed ∧ o.history = true

/-! ## Concrete inputs -/

/-- An upstream that answers 200 with a readable body that parses to `cgs`; every token is
stamped with the instant `stamp`. -/
def feedOf (cgs : List CoinGeckoToken) (stamp : Time) (out : Nat → Outcome) : CycleEnv :=
  { get := fun _ => .response 200 "[...]" false
    unmarshal := fun _ => some cgs
    now := fun _ => stamp
    out := out }

/-- An upstream that answers with status 500. -/
def feed500 (out : Nat → Outcome) : CycleEnv :=
  { get := fun _ => .response 500 "Internal Server Error" false
    unmarshal := fun _ => some []
    now := fun _ => 0
    out := out }

/-- Upstream entry of token A. -/
def cgA : CoinGeckoToken :=
  { ID := "A", Symbol := "a", Name := "Alpha", CurrentPrice := 100, MarketCap := 9000,
    TotalVolume := 50, PriceChange24h := 1 }

/-- Upstream entry of token B. -/
def cgB : CoinGeckoToken :=
  { ID := "B", Symbol := "b", Name := "Beta", CurrentPrice := 20, MarketCap := 8000,
    TotalVolume := 40, PriceChange24h := 2 }

/-- Upstream entry of token C. -/
def cgC : CoinGeckoToken :=
  { ID := "C", Symbol := "c", Name := "Gamma", CurrentPrice := 3, MarketCap := 7000,
    TotalVolume := 30, PriceChange24h := 3 }

/-- Token A as fetched at the start of millisecond 7. -/
def tokA : Token :=
  { ID := "A", Symbol := "a", Name := "Alpha", CurrentPrice := 100, MarketCap := 9000,
    Volume24h := 50, UpdatedAt := 7 }

/-- Token B as fetched at the start of millisecond 7. -/
def tokB : Token :=
  { ID := "B", Symbol := "b", Name := "Beta", CurrentPrice := 20, MarketCap := 8000,
    Volume24h := 40, UpdatedAt := 7 }

/-- Token C as fetched at the start of millisecond 7. -/
def tokC : Token :=
  { ID := "C", Symbol := "c", Name := "Gamma", CurrentPrice := 3, MarketCap := 7000,
    Volume24h := 30, UpdatedAt := 7 }

/-- The worker started by `main`, with an interval of one minute. -/
def mainWorker : PriceWorker := NewPriceWorker 60000000000

/-- Empty stores. -/
def emptyStores : Stores := { tokens := [], price_history := [], crypto_tokens := [] }

/-- Every store call succeeds, except the snapshot upsert of the second token. -/
def secondUpsertFails : Nat → Outcome :=
  fun i => if i = 1 then { scylla := false, es := .indexed, history := true } else allOk i

/-- Every snapshot upsert succeeds and every index write fails with a request error. -/
def indexFails : Nat → Outcome :=
  fun _ => { scylla := true, es := .requestError, history := true }

/-- Every store call succeeds, except the index write of the second token. -/
def secondIndexFails : Nat → Outcome :=
  fun i => if i = 1 then { scylla := true, es := .requestError, history := true } else allOk i

/-- Every snapshot upsert and index write succeeds and every history append fails. -/
def historyFails : Nat → Outcome :=
  fun _ => { scylla := true, es := .indexed, history := false }

/-- An upstream that reports token A twice; the two clock readings are 200 nanoseconds
apart and fall in the milliseconds 7 and 8; every store call succeeds. -/
def feedTwiceA : CycleEnv :=
  { get := fun _ => .response 200 "[...]" false
    unmarshal := fun _ => some [cgA, cgA]
    now := fun k =>
      if k = 0 then { millis := 7, nanos := 999900 } else { millis := 8, nanos := 100 }
    out := allOk }

/-- Every store call returns no error, and Elasticsearch answers every index request with
status 500. -/
def esRejects : Nat → Outcome :=
  fun _ => { scylla := true, es := .indexed, history := true, esStatus := 500 }

/-- Token A as fetched 999900 nanoseconds into millisecond 7. -/
def tokALate : Token := { tokA with UpdatedAt := { millis := 7, nanos := 999900 } }

theorem IndexToken_tokenMap (es : List (String × Doc)) (token : Token) (o : IndexOutcome)
    (status : Nat) :
    IndexToken es (tokenMap token) o status =
      some (if o = .indexed then
              (if esAccepted status = true then tablePut es token.ID (tokenMap token) else es,
               true)
            else (es, false)) := by
  cases o <;> simp [IndexToken, tokenMap, tableGet]

theorem processToken_eq (o : Outcome) (st : SyncState) (token : Token) :
    processToken o st token =
      some { stores := tokenStores o st.stores token
             calls := st.calls ++ tokenCalls o token
             log := st.log ++ tokenLog o token
             successCount := st.successCount + tokenCount o } := by
  obtain ⟨sc, es, hi⟩ := o
  cases sc <;> cases es <;> cases hi <;>
    simp [processToken, IndexToken_tokenMap, tokenStores, tokenCalls, tokenLog, tokenCount]

theorem syncLoop_eq (tokens : List Token) (out : Nat → Outcome) (st : SyncState) :
    syncLoop tokens out st =
      some { stores := loopStores tokens out st.stores
             calls := st.calls ++ loopCalls tokens out
             log := st.log ++ loopLog tokens out
             successCount := st.successCount + loopCount tokens out } := by
  induction tokens generalizing out st with
  | nil => simp [syncLoop, loopStores, loopCalls, loopLog, loopCount]
  | cons t ts ih =>
    have hshift : shiftOut 1 out = fun i => out (i + 1) := rfl
    simp [syncLoop, processToken_eq, ih, loopStores, loopCalls, loopLog, loopCount, hshift,
      Nat.add_assoc]

theorem length_convertTokens (now : Nat → Time) (k : Nat) (cgs : List CoinGeckoToken) :
    (convertTokens now k cgs).length = cgs.length := by
  induction cgs generalizing k with
  | nil => rfl
  | cons cg rest ih => simp [convertTokens, ih]

theorem getElem?_convertTokens (now : Nat → Time) (k : Nat) (cgs : List CoinGeckoToken)
    (i : Nat) :
    (convertTokens now k cgs)[i]? =
      (cgs[i]?).map (fun cg =>
        { ID := cg.ID, Symbol := cg.Symbol, Name := cg.Name, CurrentPrice := cg.CurrentPrice,
          MarketCap := cg.MarketCap, Volume24h := cg.TotalVolume, UpdatedAt := now (k + i) }) := by
  induction cgs generalizing k i with
  | nil => simp [convertTokens]
  | cons cg rest ih =>
    cases i with
    | zero => simp [convertTokens]
    | succ i => simp [convertTokens, ih, Nat.add_assoc, Nat.add_comm 1 i]

theorem syncPrices_of_fetch_ok (w : PriceWorker) (env : CycleEnv) (s : Stores)
    (tokens : List Token) (hfetch : FetchTopTokens w.CoinGecko env 10 = .ok tokens) :
    syncPrices w env s =
      some { stores := loopStores tokens env.out s
             calls := loopCalls tokens env.out
             log := LogLine.syncing :: loopLog tokens env.out ++
               [.synced (loopCount tokens env.out) tokens.length] } := by
  simp [syncPrices, hfetch, syncLoop_eq]

theorem syncPrices_of_fetch_error (w : PriceWorker) (env : CycleEnv) (s : Stores)
    (e : FetchError) (hfetch : FetchTopTokens w.CoinGecko env 10 = .error e) :
    syncPrices w env s = some { stores := s, calls := [], log := [.syncing, .fetchFailed e] } := by
  simp [syncPrices, hfetch]

theorem shiftOut_zero (out : Nat → Outcome) : shiftOut 0 out = out := rfl

theorem shiftOut_at_zero (n : Nat) (out : Nat → Outcome) : shiftOut n out 0 = out n := by
  simp [shiftOut]

theorem shiftOut_shiftOut (m n : Nat) (out : Nat → Outcome) :
    shiftOut m (shiftOut n out) = shiftOut (n + m) out := by
  funext i
  simp [shiftOut, Nat.add_assoc, Nat.add_comm m n]

theorem loopCalls_append (a b : List Token) (out : Nat → Outcome) :
    loopCalls (a ++ b) out = loopCalls a out ++ loopCalls b (shiftOut a.length out) := by
  induction a generalizing out with
  | nil => simp [loopCalls, shiftOut_zero]
  | cons t ts ih =>
    simp [loopCalls, ih, shiftOut_shiftOut, Nat.add_comm]

theorem loopLog_append (a b : List Token) (out : Nat → Outcome) :
    loopLog (a ++ b) out = loopLog a out ++ loopLog b (shiftOut a.length out) := by
  induction a generalizing out with
  | nil => simp [loopLog, shiftOut_zero]
  | cons t ts ih =>
    simp [loopLog, ih, shiftOut_shiftOut, Nat.add_comm]

theorem loopCount_append (a b : List Token) (out : Nat → Outcome) :
    loopCount (a ++ b) out = loopCount a out + loopCount b (shiftOut a.length out) := by
  induction a generalizing out with
  | nil => simp [loopCount, shiftOut_zero]
  | cons t ts ih =>
    simp [loopCount, ih, shiftOut_shiftOut, Nat.add_comm 1, Nat.add_assoc]

theorem loopStores_append (a b : List Token) (out : Nat → Outcome) (s : Stores) :
    loopStores (a ++ b) out s = loopStores b (shiftOut a.length out) (loopStores a out s) := by
  induction a generalizing out s with
  | nil => simp [loopStores, shiftOut_zero]
  | cons t ts ih =>
    simp [loopStores, ih, shiftOut_shiftOut, Nat.add_comm]

theorem loopCalls_congr (ts : List Token) (out out' : Nat → Outcome)
    (h : ∀ i, i < ts.length → out i = out' i) : loopCalls ts out = loopCalls ts out' := by
  induction ts generalizing out out' with
  | nil => rfl
  | cons t ts ih =>
    have h0 : out 0 = out' 0 := h 0 (by simp)
    have hrest : loopCalls ts (shiftOut 1 out) = loopCalls ts (shiftOut 1 out') :=
      ih _ _ (fun i hi => h (i + 1) (by simpa using hi))
    simp [loopCalls, h0, hrest]

theorem loopLog_congr (ts : List Token) (out out' : Nat → Outcome)
    (h : ∀ i, i < ts.length → out i = out' i) : loopLog ts out = loopLog ts out' := by
  induction ts generalizing out out' with
  | nil => rfl
  | cons t ts ih =>
    have h0 : out 0 = out' 0 := h 0 (by simp)
    have hrest : loopLog ts (shiftOut 1 out) = loopLog ts (shiftOut 1 out') :=
      ih _ _ (fun i hi => h (i + 1) (by simpa using hi))
    simp [loopLog, h0, hrest]

theorem loopCount_congr (ts : List Token) (out out' : Nat → Outcome)
    (h : ∀ i, i < ts.length → out i = out' i) : loopCount ts out = loopCount ts out' := by
  induction ts generalizing out out' with
  | nil => rfl
  | cons t ts ih =>
    have h0 : out 0 = out' 0 := h 0 (by simp)
    have hrest : loopCount ts (shiftOut 1 out) = loopCount ts (shiftOut 1 out') :=
      ih _ _ (fun i hi => h (i + 1) (by simpa using hi))
    simp [loopCount, h0, hrest]

theorem loopStores_congr (ts : List Token) (out out' : Nat → Outcome) (s : Stores)
    (h : ∀ i, i < ts.length → out i = out' i) : loopStores ts out s = loopStores ts out' s := by
  induction ts generalizing out out' s with
  | nil => rfl
  | cons t ts ih =>
    have h0 : out 0 = out' 0 := h 0 (by simp)
    have hrest : ∀ s', loopStores ts (shiftOut 1 out) s' = loopStores ts (shiftOut 1 out') s' :=
      fun s' => ih _ _ s' (fun i hi => h (i + 1) (by simpa using hi))
    simp [loopStores, h0, hrest]

theorem dropOut_below (k : Nat) (out : Nat → Outcome) (i : Nat) (hi : i < k) :
    dropOut k out i = out i := by
  simp [dropOut, hi]

theorem shiftOut_dropOut (k : Nat) (out : Nat → Outcome) :
    shiftOut k (dropOut k out) = shiftOut (k + 1) out := by
  funext i
  simp [shiftOut, dropOut, Nat.add_assoc, Nat.add_comm 1 k]

/-! ## C1: a failed snapshot upsert short-circuits its token only -/

/-- C1. In one sync cycle whose fetched batch is `pre ++ x :: post`, if the Record Store
snapshot upsert for `x` fails, then the cycle's store calls are those of the cycle on the
batch `pre ++ post` (same outcomes for every other token), with the single failed upsert of
`x` inserted after the calls made for `pre`: no Index Store write and no history append is
attempted for `x`, and the writes attempted for every other token, their outcomes, the
resulting stores and the success count are those of the cycle without `x`. -/
theorem syncPrices_upsert_failure_skips_token_only (w : PriceWorker) (env env' : CycleEnv)
    (s : Stores) (pre post : List Token) (x : Token)
    (hfetch : FetchTopTokens w.CoinGecko env 10 = .ok (pre ++ x :: post))
    (hfail : (env.out pre.length).scylla = false)
    (hfetch' : FetchTopTokens w.CoinGecko env' 10 = .ok (pre ++ post))
    (hout : env'.out = dropOut pre.length env.out) :
    ∃ r r' stPre n,
      syncPrices w env s = some r ∧ syncPrices w env' s = some r' ∧
      syncLoop pre env.out (loopStart s) = some stPre ∧
      r'.calls = stPre.calls ++ r'.calls.drop stPre.calls.length ∧
      r.calls = stPre.calls ++ [StoreCall.insertToken (tokenRow x) false]
        ++ r'.calls.drop stPre.calls.length ∧
      r.stores = r'.stores ∧
      r.log.getLast? = some (.synced n (pre.length + post.length + 1)) ∧
      r'.log.getLast? = some (.synced n (pre.length + post.length)) := by
  have hpre : ∀ i, i < pre.length → dropOut pre.length env.out i = env.out i :=
    fun i hi => dropOut_below _ _ i hi
  have hx : tokenCalls (env.out pre.length) x = [StoreCall.insertToken (tokenRow x) false] := by
    simp [tokenCalls, hfail]
  have hxs : ∀ s', tokenStores (env.out pre.length) s' x = s' := by
    intro s'; simp [tokenStores, hfail]
  have hxc : tokenCount (env.out pre.length) = 0 := by simp [tokenCount, hfail]
  refine ⟨_, _, _, loopCount (pre ++ post) env'.out,
    syncPrices_of_fetch_ok w env s _ hfetch, syncPrices_of_fetch_ok w env' s _ hfetch',
    syncLoop_eq pre env.out (loopStart s), ?_, ?_, ?_, ?_, ?_⟩
  · simp [loopStart, hout, loopCalls_append, loopCalls_congr pre _ _ hpre]
  · simp [loopStart, hout, loopCalls_append, loopCalls_congr pre _ _ hpre, loopCalls,
      shiftOut_at_zero, hx, shiftOut_dropOut, shiftOut_shiftOut]
  · simp [hout, loopStores_append, loopStores_congr pre _ _ s hpre, loopStores,
      shiftOut_at_zero, hxs, shiftOut_dropOut, shiftOut_shiftOut]
  · simp only [List.getLast?_concat]
    simp [hout, loopCount_append, loopCount_congr pre _ _ hpre, loopCount,
      shiftOut_at_zero, hxc, shiftOut_dropOut, shiftOut_shiftOut, Nat.add_assoc]
  · simp only [List.getLast?_concat]
    simp

/-- Witness of C1: the batch [A, B, C] in which only the snapshot upsert of B fails, against
the batch [A, C]. -/
theorem syncPrices_upsert_failure_skips_token_only_witness :
    FetchTopTokens mainWorker.CoinGecko (feedOf [cgA, cgB, cgC] 7 secondUpsertFails) 10
      = .ok ([tokA] ++ tokB :: [tokC]) ∧
    (secondUpsertFails [tokA].length).scylla = false ∧
    FetchTopTokens mainWorker.CoinGecko (feedOf [cgA, cgC] 7 (dropOut 1 secondUpsertFails)) 10
      = .ok ([tokA] ++ [tokC]) ∧
    ∃ r r' stPre n,
      syncPrices mainWorker (feedOf [cgA, cgB, cgC] 7 secondUpsertFails) emptyStores = some r ∧
      syncPrices mainWorker (feedOf [cgA, cgC] 7 (dropOut 1 secondUpsertFails)) emptyStores
        = some r' ∧
      syncLoop [tokA] secondUpsertFails (loopStart emptyStores) = some stPre ∧
      r'.calls = stPre.calls ++ r'.calls.drop stPre.calls.length ∧
      r.calls = stPre.calls ++ [StoreCall.insertToken (tokenRow tokB) false]
        ++ r'.calls.drop stPre.calls.length ∧
      r.stores = r'.stores ∧
      r.log.getLast? = some (.synced n ([tokA].length + [tokC].length + 1)) ∧
      r'.log.getLast? = some (.synced n ([tokA].length + [tokC].length)) :=
  ⟨rfl, rfl, rfl,
    syncPrices_upsert_failure_skips_token_only mainWorker
      (feedOf [cgA, cgB, cgC] 7 secondUpsertFails)
      (feedOf [cgA, cgC] 7 (dropOut 1 secondUpsertFails)) emptyStores [tokA] [tokC] tokB
      rfl rfl rfl rfl⟩

/-! ## C2: a failed fetch makes no store call -/

theorem FetchTopTokens_error_iff (c : CoinGeckoClient) (env : CycleEnv) (limit : Int) :
    (∃ e, FetchTopTokens c env limit = .error e) ↔ feedFails c env limit := by
  unfold FetchTopTokens feedFails
  cases hget : env.get (topTokensURL c.BaseURL limit) with
  | transportError => simp
  | response status body readErr =>
    by_cases hst : status = 200
    · cases readErr
      · cases hu : env.unmarshal body with
        | none =>
          simp only [hst, hu]
          exact ⟨fun _ => Or.inr ⟨200, body, false, rfl, Or.inr (Or.inr hu)⟩, fun _ => ⟨_, rfl⟩⟩
        | some cgs => simp [hst, hu]
      · simp only [hst]
        exact ⟨fun _ => Or.inr ⟨200, body, true, rfl, Or.inr (Or.inl rfl)⟩, fun _ => ⟨_, rfl⟩⟩
    · exact ⟨fun _ => Or.inr ⟨status, body, readErr, rfl, Or.inl hst⟩,
        fun _ => ⟨.apiError body status, by simp [hst]⟩⟩

/-- C2. Whenever the feed fetch fails (transport error, a status other than 200, an
unreadable body, or a payload that does not parse), `FetchTopTokens` returns an error (and
so no tokens), and the sync cycle makes no store call at all and leaves the stores as they
were; it logs the fetch failure only. -/
theorem syncPrices_fetch_failure_no_store_call (w : PriceWorker) (env : CycleEnv) (s : Stores)
    (hfail : feedFails w.CoinGecko env 10) :
    ∃ e, FetchTopTokens w.CoinGecko env 10 = .error e ∧
      syncPrices w env s =
        some { stores := s, calls := [], log := [.syncing, .fetchFailed e] } := by
  obtain ⟨e, he⟩ := (FetchTopTokens_error_iff w.CoinGecko env 10).mpr hfail
  exact ⟨e, he, syncPrices_of_fetch_error w env s e he⟩

/-- Witness of C2: the upstream answers with status 500. -/
theorem syncPrices_fetch_failure_no_store_call_witness :
    feedFails mainWorker.CoinGecko (feed500 allOk) 10 ∧
    ∃ e, FetchTopTokens mainWorker.CoinGecko (feed500 allOk) 10 = .error e ∧
      syncPrices mainWorker (feed500 allOk) emptyStores =
        some { stores := emptyStores, calls := [], log := [.syncing, .fetchFailed e] } :=
  ⟨Or.inr ⟨500, "Internal Server Error", false, rfl, Or.inl (by decide)⟩,
    syncPrices_fetch_failure_no_store_call mainWorker (feed500 allOk) emptyStores
      (Or.inr ⟨500, "Internal Server Error", false, rfl, Or.inl (by decide)⟩)⟩

/-! ## Facts about keyed tables -/

theorem tableGet_tablePut {κ ρ : Type} [DecidableEq κ] (t : List (κ × ρ)) (k k' : κ) (r : ρ) :
    tableGet (tablePut t k r) k' = if k = k' then some r else tableGet t k' := by
  induction t with
  | nil => simp [tablePut, tableGet]
  | cons e rest ih =>
    obtain ⟨k0, r0⟩ := e
    by_cases h0 : k0 = k
    · subst h0
      by_cases h1 : k0 = k' <;> simp [tablePut, tableGet, h1]
    · by_cases h1 : k0 = k'
      · subst h1
        simp [tablePut, tableGet, h0, Ne.symm h0]
      · simp [tablePut, tableGet, h0, h1, ih]

theorem tableGet_tablePut_self {κ ρ : Type} [DecidableEq κ] (t : List (κ × ρ)) (k : κ) (r : ρ) :
    tableGet (tablePut t k r) k = some r := by
  simp [tableGet_tablePut]

/-! ## C3: a failed index write skips the history step of its token only -/

theorem loopCalls_at (ts : List Token) (out : Nat → Outcome) (j : Nat) (hj : j < ts.length) :
    ∃ a b, loopCalls ts out = a ++ tokenCalls (out j) (ts.get ⟨j, hj⟩) ++ b := by
  induction ts generalizing out j with
  | nil => simp at hj
  | cons t ts ih =>
    cases j with
    | zero => exact ⟨[], loopCalls ts (shiftOut 1 out), by simp [loopCalls]⟩
    | succ j =>
      have hj' : j < ts.length := by simpa using hj
      obtain ⟨a, b, hab⟩ := ih (shiftOut 1 out) j hj'
      refine ⟨tokenCalls (out 0) t ++ a, b, ?_⟩
      simp [loopCalls, hab, shiftOut]

/-- C3. In one sync cycle whose fetched batch is `pre ++ x :: post`, if the Record Store
upsert for `x` succeeded and the Index Store write for `x` fails, then the calls made for `x`
are exactly the upsert and the failed index write (no history append is attempted for `x`),
and the cycle goes on with the loop over the later tokens `post`, run with their own outcomes
from the stores `x` left: its calls follow those of `x`, its stores are the cycle's final
stores, and every later token whose upsert and index write succeed gets all three calls. -/
theorem syncPrices_index_failure_skips_history_of_token_only (w : PriceWorker) (env : CycleEnv)
    (s : Stores) (pre post : List Token) (x : Token)
    (hfetch : FetchTopTokens w.CoinGecko env 10 = .ok (pre ++ x :: post))
    (hup : (env.out pre.length).scylla = true)
    (hes : (env.out pre.length).es ≠ .indexed) :
    ∃ r stPre stPost,
      syncPrices w env s = some r ∧
      syncLoop pre env.out (loopStart s) = some stPre ∧
      syncLoop post (shiftOut (pre.length + 1) env.out)
        { stores := { stPre.stores with
            tokens := tablePut stPre.stores.tokens x.ID (tokenRow x) }
          calls := [], log := [], successCount := 0 } = some stPost ∧
      r.calls = stPre.calls ++
        [StoreCall.insertToken (tokenRow x) true, StoreCall.indexToken (tokenMap x) false] ++
        stPost.calls ∧
      r.stores = stPost.stores ∧
      ∀ (j : Nat) (hj : j < post.length),
        (env.out (pre.length + 1 + j)).scylla = true →
        (env.out (pre.length + 1 + j)).es = .indexed →
        ∃ a b, stPost.calls = a ++
          [StoreCall.insertToken (tokenRow (post.get ⟨j, hj⟩)) true,
           StoreCall.indexToken (tokenMap (post.get ⟨j, hj⟩)) true,
           StoreCall.insertHistory (post.get ⟨j, hj⟩).ID (post.get ⟨j, hj⟩).UpdatedAt
             (post.get ⟨j, hj⟩).CurrentPrice (env.out (pre.length + 1 + j)).history] ++ b := by
  have hx : tokenCalls (env.out pre.length) x =
      [StoreCall.insertToken (tokenRow x) true, StoreCall.indexToken (tokenMap x) false] := by
    simp [tokenCalls, hup, hes]
  have hxs : ∀ s', tokenStores (env.out pre.length) s' x =
      { s' with tokens := tablePut s'.tokens x.ID (tokenRow x) } := by
    intro s'; simp [tokenStores, hup, hes]
  refine ⟨_, _, _, syncPrices_of_fetch_ok w env s _ hfetch,
    syncLoop_eq pre env.out (loopStart s), syncLoop_eq _ _ _, ?_, ?_, ?_⟩
  · simp [loopStart, loopCalls_append, loopCalls, shiftOut_at_zero, hx, shiftOut_shiftOut]
  · simp [loopStart, loopStores_append, loopStores, shiftOut_at_zero, hxs, shiftOut_shiftOut]
  · intro j hj hsc hix
    obtain ⟨a, b, hab⟩ := loopCalls_at post (shiftOut (pre.length + 1) env.out) j hj
    refine ⟨a, b, ?_⟩
    have hidx : shiftOut (pre.length + 1) env.out j = env.out (pre.length + 1 + j) := by
      simp [shiftOut, Nat.add_comm]
    simp only [List.nil_append, hab, hidx]
    simp [tokenCalls, hsc, hix]

/-- Witness of C3: the batch [A, B, C] in which only the index write of B fails. -/
theorem syncPrices_index_failure_skips_history_of_token_only_witness :
    FetchTopTokens mainWorker.CoinGecko (feedOf [cgA, cgB, cgC] 7 secondIndexFails) 10
      = .ok ([tokA] ++ tokB :: [tokC]) ∧
    (secondIndexFails [tokA].length).scylla = true ∧
    (secondIndexFails [tokA].length).es ≠ .indexed ∧
    ∃ r stPre stPost,
      syncPrices mainWorker (feedOf [cgA, cgB, cgC] 7 secondIndexFails) emptyStores = some r ∧
      syncLoop [tokA] secondIndexFails (loopStart emptyStores) = some stPre ∧
      syncLoop [tokC] (shiftOut ([tokA].length + 1) secondIndexFails)
        { stores := { stPre.stores with
            tokens := tablePut stPre.stores.tokens tokB.ID (tokenRow tokB) }
          calls := [], log := [], successCount := 0 } = some stPost ∧
      r.calls = stPre.calls ++
        [StoreCall.insertToken (tokenRow tokB) true,
         StoreCall.indexToken (tokenMap tokB) false] ++
        stPost.calls ∧
      r.stores = stPost.stores ∧
      ∀ (j : Nat) (hj : j < [tokC].length),
        (secondIndexFails ([tokA].length + 1 + j)).scylla = true →
        (secondIndexFails ([tokA].length + 1 + j)).es = .indexed →
        ∃ a b, stPost.calls = a ++
          [StoreCall.insertToken (tokenRow ([tokC].get ⟨j, hj⟩)) true,
           StoreCall.indexToken (tokenMap ([tokC].get ⟨j, hj⟩)) true,
           StoreCall.insertHistory ([tokC].get ⟨j, hj⟩).ID ([tokC].get ⟨j, hj⟩).UpdatedAt
             ([tokC].get ⟨j, hj⟩).CurrentPrice (secondIndexFails ([tokA].length + 1 + j)).history]
          ++ b :=
  ⟨rfl, rfl, by decide,
    syncPrices_index_failure_skips_history_of_token_only mainWorker
      (feedOf [cgA, cgB, cgC] 7 secondIndexFails) emptyStores [tokA] [tokC] tokB rfl rfl (by decide)⟩

/-! ## C4: after a failed index write no history point is appended -/

/-- C4, counterexample. The batch [A]: the snapshot upsert of A succeeds, its index write
fails. The cycle makes two store calls, the upsert and the failed index write; no history
append is attempted and the price history stays empty. -/
theorem syncPrices_index_failure_history_counterexample :
    (indexFails 0).scylla = true ∧ (indexFails 0).es ≠ .indexed ∧
    syncPrices mainWorker (feedOf [cgA] 7 indexFails) emptyStores =
      some { stores := { tokens := [("A", tokenRow tokA)], price_history := [],
                         crypto_tokens := [] }
             calls := [.insertToken (tokenRow tokA) true, .indexToken (tokenMap tokA) false]
             log := [.syncing, .esFailed "A", .synced 0 1] } :=
  ⟨rfl, by decide, rfl⟩

/-- C4, amended. In one sync cycle whose fetched batch is `pre ++ x :: post`, if the Record
Store upsert for `x` succeeded and the Index Store write for `x` fails, then no history point
for `x` is appended: the iteration of `x` makes exactly two store calls (the upsert and the
failed index write), leaves the price history and the index as they were, keeps the
snapshot row of `x` in the Record Store and does not count `x` as synced. -/
theorem syncPrices_index_failure_appends_no_history (w : PriceWorker) (env : CycleEnv)
    (s : Stores) (pre post : List Token) (x : Token)
    (hfetch : FetchTopTokens w.CoinGecko env 10 = .ok (pre ++ x :: post))
    (hup : (env.out pre.length).scylla = true)
    (hes : (env.out pre.length).es ≠ .indexed) :
    ∃ r stPre stX,
      syncPrices w env s = some r ∧
      syncLoop pre env.out (loopStart s) = some stPre ∧
      syncLoop (pre ++ [x]) env.out (loopStart s) = some stX ∧
      r.calls.take stX.calls.length = stX.calls ∧
      stX.calls = stPre.calls ++
        [StoreCall.insertToken (tokenRow x) true, StoreCall.indexToken (tokenMap x) false] ∧
      stX.stores.price_history = stPre.stores.price_history ∧
      stX.stores.crypto_tokens = stPre.stores.crypto_tokens ∧
      tableGet stX.stores.tokens x.ID = some (tokenRow x) ∧
      stX.successCount = stPre.successCount := by
  have hx : tokenCalls (env.out pre.length) x =
      [StoreCall.insertToken (tokenRow x) true, StoreCall.indexToken (tokenMap x) false] := by
    simp [tokenCalls, hup, hes]
  have hxs : ∀ s', tokenStores (env.out pre.length) s' x =
      { s' with tokens := tablePut s'.tokens x.ID (tokenRow x) } := by
    intro s'; simp [tokenStores, hup, hes]
  have hxc : tokenCount (env.out pre.length) = 0 := by simp [tokenCount, hup, hes]
  have hsplit : pre ++ x :: post = (pre ++ [x]) ++ post := by simp
  refine ⟨_, _, _, syncPrices_of_fetch_ok w env s _ hfetch,
    syncLoop_eq pre env.out (loopStart s), syncLoop_eq _ _ _, ?_, ?_, ?_, ?_, ?_, ?_⟩
  · simp only [hsplit, loopCalls_append (pre ++ [x]) post, loopStart, List.nil_append]
    simp
  · simp [loopStart, loopCalls_append, loopCalls, shiftOut_at_zero, hx]
  · simp [loopStart, loopStores_append, loopStores, shiftOut_at_zero, hxs]
  · simp [loopStart, loopStores_append, loopStores, shiftOut_at_zero, hxs]
  · simp [loopStart, loopStores_append, loopStores, shiftOut_at_zero, hxs,
      tableGet_tablePut_self]
  · simp [loopStart, loopCount_append, loopCount, shiftOut_at_zero, hxc]

/-- Witness of the amended C4: the batch [A, B, C] in which only the index write of B
fails. -/
theorem syncPrices_index_failure_appends_no_history_witness :
    FetchTopTokens mainWorker.CoinGecko (feedOf [cgA, cgB, cgC] 7 secondIndexFails) 10
      = .ok ([tokA] ++ tokB :: [tokC]) ∧
    (secondIndexFails [tokA].length).scylla = true ∧
    (secondIndexFails [tokA].length).es ≠ .indexed ∧
    ∃ r stPre stX,
      syncPrices mainWorker (feedOf [cgA, cgB, cgC] 7 secondIndexFails) emptyStores = some r ∧
      syncLoop [tokA] secondIndexFails (loopStart emptyStores) = some stPre ∧
      syncLoop ([tokA] ++ [tokB]) secondIndexFails (loopStart emptyStores) = some stX ∧
      r.calls.take stX.calls.length = stX.calls ∧
      stX.calls = stPre.calls ++
        [StoreCall.insertToken (tokenRow tokB) true,
         StoreCall.indexToken (tokenMap tokB) false] ∧
      stX.stores.price_history = stPre.stores.price_history ∧
      stX.stores.crypto_tokens = stPre.stores.crypto_tokens ∧
      tableGet stX.stores.tokens tokB.ID = some (tokenRow tokB) ∧
      stX.successCount = stPre.successCount :=
  ⟨rfl, rfl, by decide,
    syncPrices_index_failure_appends_no_history mainWorker
      (feedOf [cgA, cgB, cgC] 7 secondIndexFails) emptyStores [tokA] [tokC] tokB
      rfl rfl (by decide)⟩

/-! ## C5: the success count -/

theorem countPositions_succ (n : Nat) (p : Nat → Bool) :
    countPositions (n + 1) p = (if p 0 then 1 else 0) + countPositions n (fun i => p (i + 1)) := by
  unfold countPositions
  rw [List.range_succ_eq_map, List.countP_cons, List.countP_map, Nat.add_comm]
  rfl

theorem loopCount_eq_countPositions (ts : List Token) (out : Nat → Outcome) :
    loopCount ts out = countPositions ts.length (upsertAndIndexOk out) := by
  induction ts generalizing out with
  | nil => simp [loopCount, countPositions]
  | cons t ts ih =>
    rw [loopCount, ih, List.length_cons, countPositions_succ]
    have h0 : tokenCount (out 0) = if upsertAndIndexOk out 0 then 1 else 0 := by
      unfold tokenCount upsertAndIndexOk
      cases (out 0).scylla <;> by_cases h : (out 0).es = .indexed <;> simp [h]
    rw [h0]
    rfl

theorem countPositions_upsertAndIndexOk (n : Nat) (out : Nat → Outcome) :
    countPositions n (upsertAndIndexOk out) =
      countPositions n (allThreeOk out) + countPositions n (historyOnlyFails out) := by
  induction n generalizing out with
  | zero => simp [countPositions]
  | succ n ih =>
    have hshift : ∀ (f : (Nat → Outcome) → Nat → Bool),
        (f = upsertAndIndexOk ∨ f = allThreeOk ∨ f = historyOnlyFails) →
        (fun i => f out (i + 1)) = f (shiftOut 1 out) := by
      intro f hf
      rcases hf with h | h | h <;> subst h <;> rfl
    rw [countPositions_succ, countPositions_succ, countPositions_succ,
      hshift _ (Or.inl rfl), hshift _ (Or.inr (Or.inl rfl)), hshift _ (Or.inr (Or.inr rfl)),
      ih (shiftOut 1 out)]
    have h0 : (if upsertAndIndexOk out 0 then 1 else 0) =
        (if allThreeOk out 0 then 1 else 0) + (if historyOnlyFails out 0 then 1 else 0) := by
      unfold upsertAndIndexOk allThreeOk historyOnlyFails
      cases (out 0).scylla <;> cases (out 0).history <;>
        by_cases h : (out 0).es = .indexed <;> simp [h]
    rw [h0]
    omega

/-- C5, counterexample. The batch [A]: upsert and index write of A succeed, its history
append fails. No token completed all three steps, yet the cycle reports 1/1. -/
theorem syncPrices_success_count_counterexample :
    countPositions [tokA].length (allThreeOk historyFails) = 0 ∧
    syncPrices mainWorker (feedOf [cgA] 7 historyFails) emptyStores =
      some { stores := { tokens := [("A", tokenRow tokA)], price_history := [],
                         crypto_tokens := [("A", tokenMap tokA)] }
             calls := [.insertToken (tokenRow tokA) true, .indexToken (tokenMap tokA) true,
                       .insertHistory "A" 7 100 false]
             log := [.syncing, .historyFailed "A", .synced 1 1] } :=
  ⟨rfl, rfl⟩

/-- C5, amended. For every fetched batch and every pattern of store write outcomes, the
success count that the cycle emits in its last log line equals the number of tokens for which
all three steps succeeded plus the number of tokens for which the upsert and the index write
succeeded and the history append failed; the total it emits equals the batch length. -/
theorem syncPrices_success_count (w : PriceWorker) (env : CycleEnv) (s : Stores)
    (tokens : List Token) (hfetch : FetchTopTokens w.CoinGecko env 10 = .ok tokens) :
    ∃ r, syncPrices w env s = some r ∧
      r.log.getLast? = some (.synced
        (countPositions tokens.length (allThreeOk env.out) +
          countPositions tokens.length (historyOnlyFails env.out))
        tokens.length) := by
  refine ⟨_, syncPrices_of_fetch_ok w env s _ hfetch, ?_⟩
  simp only [List.getLast?_concat]
  rw [loopCount_eq_countPositions, countPositions_upsertAndIndexOk]

/-- Witness of the amended C5: the batch [A, B, C] in which every history append fails. -/
theorem syncPrices_success_count_witness :
    FetchTopTokens mainWorker.CoinGecko (feedOf [cgA, cgB, cgC] 7 historyFails) 10
      = .ok [tokA, tokB, tokC] ∧
    ∃ r, syncPrices mainWorker (feedOf [cgA, cgB, cgC] 7 historyFails) emptyStores = some r ∧
      r.log.getLast? = some (.synced
        (countPositions [tokA, tokB, tokC].length
            (allThreeOk (feedOf [cgA, cgB, cgC] 7 historyFails).out) +
          countPositions [tokA, tokB, tokC].length
            (historyOnlyFails (feedOf [cgA, cgB, cgC] 7 historyFails).out))
        [tokA, tokB, tokC].length) :=
  ⟨rfl, syncPrices_success_count mainWorker (feedOf [cgA, cgB, cgC] 7 historyFails) emptyStores
    [tokA, tokB, tokC] rfl⟩

/-! ## C6: history points against successful snapshot upserts -/

theorem countP_isHistoryAppend_tokenCalls (id : String) (o : Outcome) (t : Token) :
    (tokenCalls o t).countP (isHistoryAppend id) ≤ (tokenCalls o t).countP (isUpsertOk id) := by
  obtain ⟨sc, es, hi⟩ := o
  cases sc <;> cases es <;> cases hi <;>
    by_cases h : t.ID = id <;>
    simp [tokenCalls, isHistoryAppend, isUpsertOk, tokenRow, List.countP_cons, h]

theorem countP_isUpsertOk_tokenCalls (id : String) (o : Outcome) (t : Token) :
    (tokenCalls o t).countP (isUpsertOk id) ≤ if t.ID = id then 1 else 0 := by
  obtain ⟨sc, es, hi⟩ := o
  cases sc <;> cases es <;> cases hi <;>
    by_cases h : t.ID = id <;>
    simp [tokenCalls, isUpsertOk, tokenRow, List.countP_cons, h]

theorem countP_isHistoryAppend_loopCalls (id : String) (ts : List Token) (out : Nat → Outcome) :
    (loopCalls ts out).countP (isHistoryAppend id) ≤
      (loopCalls ts out).countP (isUpsertOk id) := by
  induction ts generalizing out with
  | nil => simp [loopCalls]
  | cons t ts ih =>
    simp only [loopCalls, List.countP_append]
    exact Nat.add_le_add (countP_isHistoryAppend_tokenCalls id (out 0) t) (ih _)

theorem countP_isUpsertOk_loopCalls (id : String) (ts : List Token) (out : Nat → Outcome) :
    (loopCalls ts out).countP (isUpsertOk id) ≤ occurrences id ts := by
  induction ts generalizing out with
  | nil => simp [loopCalls, occurrences]
  | cons t ts ih =>
    have h1 := countP_isUpsertOk_tokenCalls id (out 0) t
    have h2 := ih (shiftOut 1 out)
    simp only [loopCalls, List.countP_append, occurrences, List.countP_cons] at *
    by_cases h : t.ID = id
    · rw [if_pos h] at h1
      rw [if_pos (by simpa using h)]
      omega
    · rw [if_neg h] at h1
      rw [if_neg (by simpa using h)]
      omega

theorem syncPrices_calls (w : PriceWorker) (env : CycleEnv) (s : Stores) :
    ∃ r, syncPrices w env s = some r ∧ r.calls = loopCalls (fetchedBatch w env) env.out := by
  cases hf : FetchTopTokens w.CoinGecko env 10 with
  | error e =>
    exact ⟨_, syncPrices_of_fetch_error w env s e hf, by simp [fetchedBatch, hf, loopCalls]⟩
  | ok tokens =>
    exact ⟨_, syncPrices_of_fetch_ok w env s tokens hf, by simp [fetchedBatch, hf]⟩

/-- C6, counterexample. One cycle whose batch reports token A twice, with instants 7 and 8,
all writes succeeding: two history points are appended for A (and two rows for A are in the
price history), while there is one cycle in which the snapshot upsert of A succeeded. -/
theorem runCycles_history_bound_counterexample :
    (runCycles mainWorker [feedTwiceA] emptyStores).map
        (fun rs => (historyAppended "A" rs, cyclesWithUpsert "A" rs,
          rs.map (fun r => r.stores.price_history))) =
      some (2, 1, [[(("A", 7), 100), (("A", 8), 100)]]) :=
  rfl

/-- C6, amended. For every sequence of sync cycles, every batch contents and every pattern
of store write outcomes, and for every token id: the number of history points appended for
that id never exceeds the number of successful snapshot upserts for that id; and when no
fetched batch contains that id more than once, it never exceeds the number of sync cycles in
which that id's snapshot upsert succeeded. -/
theorem runCycles_history_bound (w : PriceWorker) (envs : List CycleEnv) (s : Stores)
    (id : String) :
    ∃ rs, runCycles w envs s = some rs ∧ rs.length = envs.length ∧
      historyAppended id rs ≤ upsertsSucceeded id rs ∧
      ((∀ env ∈ envs, occurrences id (fetchedBatch w env) ≤ 1) →
        historyAppended id rs ≤ cyclesWithUpsert id rs) := by
  induction envs generalizing s with
  | nil => exact ⟨[], rfl, rfl, by simp [historyAppended], fun _ => by simp [historyAppended]⟩
  | cons env envs ih =>
    obtain ⟨r, hr, hcalls⟩ := syncPrices_calls w env s
    obtain ⟨rs, hrs, hlen, hle, hcyc⟩ := ih r.stores
    have h1 := countP_isHistoryAppend_loopCalls id (fetchedBatch w env) env.out
    have h2 := countP_isUpsertOk_loopCalls id (fetchedBatch w env) env.out
    rw [← hcalls] at h1 h2
    refine ⟨r :: rs, by simp [runCycles, hr, hrs], by simp [hlen], ?_, ?_⟩
    · simp only [historyAppended, upsertsSucceeded, List.map_cons, List.sum_cons] at *
      omega
    · intro hocc
      have hrest := hcyc (fun e he => hocc e (List.mem_cons_of_mem _ he))
      have hone := hocc env (List.mem_cons_self _ _)
      simp only [historyAppended, cyclesWithUpsert, List.map_cons, List.sum_cons,
        List.countP_cons] at *
      by_cases hany : r.calls.any (isUpsertOk id) = true
      · simp only [hany, if_true]
        omega
      · have hzero : r.calls.countP (isUpsertOk id) = 0 := by
          rw [List.countP_eq_zero]
          intro c hc
          simp only [List.any_eq_true, not_exists, not_and] at hany
          exact hany c hc
        simp only [hany]
        simp only [Bool.false_eq_true, if_false, Nat.add_zero]
        omega

/-- Witness of the amended C6: three cycles (one with a failed upsert of B, one whose fetch
fails with status 500, one in which all writes succeed) and the id A, which no batch
contains twice. -/
theorem runCycles_history_bound_witness :
    (∀ env ∈ [feedOf [cgA, cgB, cgC] 7 secondUpsertFails, feed500 allOk,
        feedOf [cgA, cgB] 9 allOk], occurrences "A" (fetchedBatch mainWorker env) ≤ 1) ∧
    ∃ rs, runCycles mainWorker [feedOf [cgA, cgB, cgC] 7 secondUpsertFails, feed500 allOk,
        feedOf [cgA, cgB] 9 allOk] emptyStores = some rs ∧
      rs.length = [feedOf [cgA, cgB, cgC] 7 secondUpsertFails, feed500 allOk,
        feedOf [cgA, cgB] 9 allOk].length ∧
      historyAppended "A" rs ≤ upsertsSucceeded "A" rs ∧
      ((∀ env ∈ [feedOf [cgA, cgB, cgC] 7 secondUpsertFails, feed500 allOk,
          feedOf [cgA, cgB] 9 allOk], occurrences "A" (fetchedBatch mainWorker env) ≤ 1) →
        historyAppended "A" rs ≤ cyclesWithUpsert "A" rs) :=
  ⟨by decide, runCycles_history_bound mainWorker _ emptyStores "A"⟩

/-! ## Facts about sequences of upserts -/

theorem putAll_nil {κ ρ : Type} [DecidableEq κ] (t : List (κ × ρ)) : putAll t [] = t := rfl

theorem putAll_cons {κ ρ : Type} [DecidableEq κ] (t : List (κ × ρ)) (kv : κ × ρ)
    (kvs : List (κ × ρ)) : putAll t (kv :: kvs) = putAll (tablePut t kv.1 kv.2) kvs := rfl

theorem tableGet_putAll {κ ρ : Type} [DecidableEq κ] (t kvs : List (κ × ρ)) (k : κ) :
    tableGet (putAll t kvs) k =
      match lastPut kvs k with
      | some v => some v
      | none => tableGet t k := by
  induction kvs generalizing t with
  | nil => simp [putAll_nil, lastPut]
  | cons kv kvs ih =>
    obtain ⟨k0, v0⟩ := kv
    rw [putAll_cons, ih, lastPut]
    cases hlast : lastPut kvs k with
    | some v => simp
    | none =>
      by_cases h : k0 = k <;> simp [tableGet_tablePut, h]

theorem tableGet_putAll_putAll {κ ρ : Type} [DecidableEq κ] (t kvs : List (κ × ρ)) (k : κ) :
    tableGet (putAll (putAll t kvs) kvs) k = tableGet (putAll t kvs) k := by
  rw [tableGet_putAll (putAll t kvs), tableGet_putAll t]
  cases lastPut kvs k <;> simp

theorem tableHas_tablePut {κ ρ : Type} [DecidableEq κ] (t : List (κ × ρ)) (k k' : κ) (r : ρ) :
    tableHas (tablePut t k r) k' = (decide (k = k') || tableHas t k') := by
  induction t with
  | nil => simp [tablePut, tableHas]
  | cons e rest ih =>
    obtain ⟨k0, r0⟩ := e
    unfold tableHas at ih ⊢
    by_cases h0 : k0 = k
    · subst h0
      simp [tablePut]
    · simp only [tablePut, h0, if_false, List.any_cons, ih]
      cases decide (k0 = k') <;> cases decide (k = k') <;> simp

theorem length_tablePut {κ ρ : Type} [DecidableEq κ] (t : List (κ × ρ)) (k : κ) (r : ρ) :
    (tablePut t k r).length = if tableHas t k = true then t.length else t.length + 1 := by
  induction t with
  | nil => simp [tablePut, tableHas]
  | cons e rest ih =>
    obtain ⟨k0, r0⟩ := e
    unfold tableHas at ih ⊢
    by_cases h0 : k0 = k
    · simp [tablePut, h0]
    · simp only [tablePut, h0, if_false, List.length_cons, ih, List.any_cons, decide_False,
        Bool.false_or]
      split <;> rfl

theorem length_putAll_of_has {κ ρ : Type} [DecidableEq κ] (t kvs : List (κ × ρ))
    (h : ∀ kv ∈ kvs, tableHas t kv.1 = true) : (putAll t kvs).length = t.length := by
  induction kvs generalizing t with
  | nil => rfl
  | cons kv kvs ih =>
    rw [putAll_cons, ih, length_tablePut, if_pos (h kv (List.mem_cons_self _ _))]
    intro kv' hkv'
    rw [tableHas_tablePut, h kv' (List.mem_cons_of_mem _ hkv')]
    simp

theorem tableHas_self_of_mem {κ ρ : Type} [DecidableEq κ] (kvs : List (κ × ρ)) (kv : κ × ρ)
    (h : kv ∈ kvs) : tableHas kvs kv.1 = true := by
  unfold tableHas
  rw [List.any_eq_true]
  exact ⟨kv, h, by simp⟩

theorem loopStores_record_of_writes_ok (ts : List Token) (out : Nat → Outcome) (s : Stores)
    (hok : ∀ i, i < ts.length →
      (out i).scylla = true ∧ (out i).es = .indexed ∧ (out i).history = true) :
    (loopStores ts out s).tokens = putAll s.tokens (snapshotPuts ts) ∧
      (loopStores ts out s).price_history = putAll s.price_history (historyPuts ts) := by
  induction ts generalizing out s with
  | nil => exact ⟨rfl, rfl⟩
  | cons t ts ih =>
    obtain ⟨h1, h2, h3⟩ := hok 0 (by simp)
    obtain ⟨ht, hp⟩ := ih (shiftOut 1 out) (tokenStores (out 0) s t)
      (fun i hi => hok (i + 1) (by simpa using hi))
    rw [loopStores, ht, hp]
    simp [tokenStores, h1, h2, h3, snapshotPuts, historyPuts, putAll_cons]

theorem loopStores_index_of_writes_ok (ts : List Token) (out : Nat → Outcome) (s : Stores)
    (hok : ∀ i, i < ts.length →
      (out i).scylla = true ∧ (out i).es = .indexed ∧ (out i).history = true)
    (hacc : ∀ i, i < ts.length → esAccepted (out i).esStatus = true) :
    (loopStores ts out s).crypto_tokens = putAll s.crypto_tokens (documentPuts ts) := by
  induction ts generalizing out s with
  | nil => rfl
  | cons t ts ih =>
    obtain ⟨h1, h2, h3⟩ := hok 0 (by simp)
    have h4 := hacc 0 (by simp)
    rw [loopStores, ih (shiftOut 1 out) _ (fun i hi => hok (i + 1) (by simpa using hi))
      (fun i hi => hacc (i + 1) (by simpa using hi))]
    simp [tokenStores, h1, h2, h4, documentPuts, putAll_cons]

theorem lastPut_of_mem {κ ρ : Type} [DecidableEq κ] (kvs : List (κ × ρ)) (kv : κ × ρ)
    (h : kv ∈ kvs) : ∃ v, lastPut kvs kv.1 = some v := by
  induction kvs with
  | nil => simp at h
  | cons e rest ih =>
    obtain ⟨k0, v0⟩ := e
    rw [lastPut]
    cases hlast : lastPut rest kv.1 with
    | some v => exact ⟨v, rfl⟩
    | none =>
      rcases List.mem_cons.mp h with heq | hmem
      · subst heq
        exact ⟨v0, by simp⟩
      · obtain ⟨v, hv⟩ := ih hmem
        rw [hlast] at hv
        cases hv

theorem tableGet_putAll_of_mem {κ ρ : Type} [DecidableEq κ] (t kvs : List (κ × ρ))
    (kv : κ × ρ) (h : kv ∈ kvs) :
    ∃ v, tableGet (putAll t kvs) kv.1 = some v ∧ lastPut kvs kv.1 = some v := by
  obtain ⟨v, hv⟩ := lastPut_of_mem kvs kv h
  exact ⟨v, by rw [tableGet_putAll, hv], hv⟩

/-! ## C7: running the propagation twice with the identical batch -/

/-- C7, counterexample. The propagation is run twice with the identical batch [A]; all six
store calls return no error. In the first run Elasticsearch answers the index request with
status 500, which `IndexToken` does not read, in the second run with a 2xx status: after the
first run the index holds no document for A, after the second run it holds one. -/
theorem syncLoop_rerun_index_counterexample :
    (syncLoop [tokA] esRejects (loopStart emptyStores)).bind (fun st1 =>
      (syncLoop [tokA] allOk (loopStart st1.stores)).map (fun st2 =>
        (st1.calls, st2.calls,
         tableGet st1.stores.crypto_tokens "A", tableGet st2.stores.crypto_tokens "A"))) =
    some
      ([.insertToken (tokenRow tokA) true, .indexToken (tokenMap tokA) true,
        .insertHistory "A" 7 100 true],
       [.insertToken (tokenRow tokA) true, .indexToken (tokenMap tokA) true,
        .insertHistory "A" 7 100 true],
       none, some (tokenMap tokA)) :=
  rfl

/-- C7, amended. Running the propagation of a sync cycle twice with the identical fetched
batch, every write returning no error, leaves for each token id of the batch the Record Store
snapshot with the same field values as after the first run; and when Elasticsearch answers
every index request of both runs with a 2xx status, it leaves the Index Store document of
each token id of the batch with the same field values as after the first run. The lookups of
all other ids are unchanged as well. -/
theorem syncLoop_rerun_keeps_snapshots (tokens : List Token) (out out2 : Nat → Outcome)
    (s : Stores)
    (hok : ∀ i, i < tokens.length → writesOk (out i))
    (hok2 : ∀ i, i < tokens.length → writesOk (out2 i)) :
    ∃ st1 st2,
      syncLoop tokens out (loopStart s) = some st1 ∧
      syncLoop tokens out2 (loopStart st1.stores) = some st2 ∧
      (∀ t ∈ tokens, ∃ row,
        tableGet st1.stores.tokens t.ID = some row ∧
        tableGet st2.stores.tokens t.ID = some row) ∧
      (∀ id, tableGet st2.stores.tokens id = tableGet st1.stores.tokens id) ∧
      ((∀ i, i < tokens.length →
          esAccepted (out i).esStatus = true ∧ esAccepted (out2 i).esStatus = true) →
        (∀ t ∈ tokens, ∃ doc,
          tableGet st1.stores.crypto_tokens t.ID = some doc ∧
          tableGet st2.stores.crypto_tokens t.ID = some doc) ∧
        (∀ id, tableGet st2.stores.crypto_tokens id =
          tableGet st1.stores.crypto_tokens id)) := by
  refine ⟨_, _, syncLoop_eq tokens out (loopStart s), syncLoop_eq tokens out2 _, ?_, ?_, ?_⟩
  · intro t ht
    simp only [loopStart, (loopStores_record_of_writes_ok tokens out _ hok).1,
      (loopStores_record_of_writes_ok tokens out2 _ hok2).1]
    obtain ⟨row, hrow, _⟩ := tableGet_putAll_of_mem s.tokens (snapshotPuts tokens)
      (t.ID, tokenRow t) (List.mem_map_of_mem (fun t => (t.ID, tokenRow t)) ht)
    exact ⟨row, hrow, by rw [tableGet_putAll_putAll]; exact hrow⟩
  · intro id
    simp only [loopStart, (loopStores_record_of_writes_ok tokens out _ hok).1,
      (loopStores_record_of_writes_ok tokens out2 _ hok2).1]
    exact tableGet_putAll_putAll _ _ _
  · intro hacc
    have h1 := loopStores_index_of_writes_ok tokens out s hok (fun i hi => (hacc i hi).1)
    have h2 := fun s' =>
      loopStores_index_of_writes_ok tokens out2 s' hok2 (fun i hi => (hacc i hi).2)
    constructor
    · intro t ht
      simp only [loopStart, h1, h2]
      obtain ⟨doc, hdoc, _⟩ := tableGet_putAll_of_mem s.crypto_tokens (documentPuts tokens)
        (t.ID, tokenMap t) (List.mem_map_of_mem (fun t => (t.ID, tokenMap t)) ht)
      exact ⟨doc, hdoc, by rw [tableGet_putAll_putAll]; exact hdoc⟩
    · intro id
      simp only [loopStart, h1, h2]
      exact tableGet_putAll_putAll _ _ _

/-- Witness of the amended C7: the batch [A, B, C] propagated twice from empty stores, every
write returning no error and every index request answered with a 2xx status. -/
theorem syncLoop_rerun_keeps_snapshots_witness :
    (∀ i, i < [tokA, tokB, tokC].length → writesOk (allOk i)) ∧
    (∀ i, i < [tokA, tokB, tokC].length →
      esAccepted (allOk i).esStatus = true ∧ esAccepted (allOk i).esStatus = true) ∧
    ∃ st1 st2,
      syncLoop [tokA, tokB, tokC] allOk (loopStart emptyStores) = some st1 ∧
      syncLoop [tokA, tokB, tokC] allOk (loopStart st1.stores) = some st2 ∧
      (∀ t ∈ [tokA, tokB, tokC], ∃ row,
        tableGet st1.stores.tokens t.ID = some row ∧
        tableGet st2.stores.tokens t.ID = some row) ∧
      (∀ id, tableGet st2.stores.tokens id = tableGet st1.stores.tokens id) ∧
      (∀ t ∈ [tokA, tokB, tokC], ∃ doc,
        tableGet st1.stores.crypto_tokens t.ID = some doc ∧
        tableGet st2.stores.crypto_tokens t.ID = some doc) ∧
      (∀ id, tableGet st2.stores.crypto_tokens id = tableGet st1.stores.crypto_tokens id) :=
  ⟨fun _ _ => ⟨rfl, rfl, rfl⟩, fun _ _ => ⟨rfl, rfl⟩,
    (syncLoop_rerun_keeps_snapshots [tokA, tokB, tokC] allOk allOk emptyStores
      (fun _ _ => ⟨rfl, rfl, rfl⟩) (fun _ _ => ⟨rfl, rfl, rfl⟩)).elim
      (fun st1 h => h.elim (fun st2 h' =>
        ⟨st1, st2, h'.1, h'.2.1, h'.2.2.1, h'.2.2.2.1,
          (h'.2.2.2.2 (fun _ _ => ⟨rfl, rfl⟩)).1, (h'.2.2.2.2 (fun _ _ => ⟨rfl, rfl⟩)).2⟩))⟩

/-! ## C8: re-running a cycle and the price history -/

theorem lastPut_map {α κ ρ : Type} [DecidableEq κ] (l : List α) (key : α → κ) (f : α → ρ)
    (k : κ) :
    lastPut (l.map (fun a => (key a, f a))) k =
      (lastPut (l.map (fun a => (key a, a))) k).map f := by
  induction l with
  | nil => rfl
  | cons a l ih =>
    simp only [List.map_cons, lastPut, ih]
    cases lastPut (l.map (fun a => (key a, a))) k with
    | some v => rfl
    | none => by_cases h : key a = k <;> simp [h]

theorem lastPut_key {α κ : Type} [DecidableEq κ] (l : List α) (key : α → κ) (k : κ) (a : α)
    (h : lastPut (l.map (fun a => (key a, a))) k = some a) : key a = k := by
  induction l with
  | nil => simp [lastPut] at h
  | cons b l ih =>
    simp only [List.map_cons, lastPut] at h
    cases hl : lastPut (l.map (fun a => (key a, a))) k with
    | some v =>
      rw [hl] at h
      exact ih (by rw [hl]; exact h)
    | none =>
      rw [hl] at h
      by_cases hb : key b = k
      · simp [hb] at h
        exact h ▸ hb
      · simp [hb] at h

theorem docMirrorsRow_tokenMap (t : Token) : docMirrorsRow (tokenMap t) (tokenRow t) := by
  refine ⟨?_, ?_, ?_, ?_, ?_, ?_, t.UpdatedAt, ?_, rfl⟩ <;> simp [tokenMap, tokenRow, tableGet]

/-- C10, counterexample. First input: a cycle on the batch [A], stamped 999900 nanoseconds
into millisecond 7, every write succeeding. The row written to the Record Store keeps
millisecond 7 in `updated_at`, the document in the Index Store carries the whole instant: the
seventh field differs. Second input: the batch [A] with every store call returning no error
and Elasticsearch answering the index request with status 500: the cycle reports 1/1, the
Record Store holds the snapshot of A and the Index Store holds no document for A. -/
theorem syncPrices_index_mirror_counterexample :
    syncPrices mainWorker (feedOf [cgA] { millis := 7, nanos := 999900 } allOk) emptyStores =
      some { stores :=
               { tokens := [("A", tokenRow tokALate)]
                 price_history := [(("A", 7), 100)]
                 crypto_tokens := [("A", tokenMap tokALate)] }
             calls :=
               [.insertToken (tokenRow tokALate) true, .indexToken (tokenMap tokALate) true,
                .insertHistory "A" { millis := 7, nanos := 999900 } 100 true]
             log := [.syncing, .synced 1 1] } ∧
    (tokenRow tokALate).updated_at = 7 ∧
    tableGet (tokenMap tokALate) "updated_at"
      = some (.time { millis := 7, nanos := 999900 }) ∧
    ¬ docMatchesRow (tokenMap tokALate) (tokenRow tokALate) ∧
    syncPrices mainWorker (feedOf [cgA] 7 esRejects) emptyStores =
      some { stores :=
               { tokens := [("A", tokenRow tokA)]
                 price_history := [(("A", 7), 100)]
                 crypto_tokens := [] }
             calls :=
               [.insertToken (tokenRow tokA) true, .indexToken (tokenMap tokA) true,
                .insertHistory "A" 7 100 true]
             log := [.syncing, .synced 1 1] } :=
  ⟨rfl, rfl, rfl, fun h => absurd h.2.2.2.2.2.2 (by decide), rfl⟩

/-- C10, amended. For every token of a cycle whose Record Store upsert and Index Store write
both return no error, the cycle's calls contain, one after the other, the upsert of a row
with the token's id and the index write of a document that carries the same values as the
row for the six fields id, symbol, name, current price, market cap and 24h volume, while the
row keeps the millisecond of the last-updated instant the document carries; `IndexToken`
returns no error for that document whatever status Elasticsearch answers, and stores it
under the row's id exactly when the status is 2xx. Hence after a cycle in which every write
returns no error and every index request is answered with a 2xx status, for every token of
the batch the Record Store snapshot and the Index Store document under its id exist and
agree in this sense, also when an id occurs more than once in the batch. -/
theorem syncPrices_index_mirrors_snapshot_to_millis (w : PriceWorker) (env : CycleEnv)
    (s : Stores) (tokens : List Token)
    (hfetch : FetchTopTokens w.CoinGecko env 10 = .ok tokens) :
    ∃ r, syncPrices w env s = some r ∧
      (∀ (j : Nat) (hj : j < tokens.length),
        (env.out j).scylla = true → (env.out j).es = .indexed →
        ∃ a b row doc,
          r.calls = a ++
            [StoreCall.insertToken row true, StoreCall.indexToken doc true,
             StoreCall.insertHistory (tokens.get ⟨j, hj⟩).ID (tokens.get ⟨j, hj⟩).UpdatedAt
               (tokens.get ⟨j, hj⟩).CurrentPrice (env.out j).history] ++ b ∧
          row.id = (tokens.get ⟨j, hj⟩).ID ∧
          docMirrorsRow doc row ∧
          ∀ es status, IndexToken es doc .indexed status =
            some (if esAccepted status = true then tablePut es row.id doc else es, true)) ∧
      ((∀ i, i < tokens.length →
          writesOk (env.out i) ∧ esAccepted (env.out i).esStatus = true) →
        ∀ t ∈ tokens, ∃ row doc,
          tableGet r.stores.tokens t.ID = some row ∧
          tableGet r.stores.crypto_tokens t.ID = some doc ∧
          row.id = t.ID ∧
          docMirrorsRow doc row) := by
  refine ⟨_, syncPrices_of_fetch_ok w env s _ hfetch, ?_, ?_⟩
  · intro j hj hsc hix
    obtain ⟨a, b, hab⟩ := loopCalls_at tokens env.out j hj
    refine ⟨a, b, tokenRow (tokens.get ⟨j, hj⟩), tokenMap (tokens.get ⟨j, hj⟩), ?_, rfl,
      docMirrorsRow_tokenMap _, ?_⟩
    · simp only [hab]
      simp [tokenCalls, hsc, hix]
    · intro es status
      simp [IndexToken_tokenMap, tokenRow]
  · intro hall t ht
    have hok : ∀ i, i < tokens.length →
        (env.out i).scylla = true ∧ (env.out i).es = .indexed ∧ (env.out i).history = true :=
      fun i hi => (hall i hi).1
    simp only [(loopStores_record_of_writes_ok tokens env.out s hok).1,
      loopStores_index_of_writes_ok tokens env.out s hok (fun i hi => (hall i hi).2)]
    obtain ⟨row, hget, hlast⟩ := tableGet_putAll_of_mem s.tokens (snapshotPuts tokens)
      (t.ID, tokenRow t) (List.mem_map_of_mem (fun t => (t.ID, tokenRow t)) ht)
    simp only [snapshotPuts, lastPut_map tokens (fun t => t.ID) tokenRow] at hlast
    cases hlt : lastPut (tokens.map (fun a => (a.ID, a))) t.ID with
    | none => simp [hlt] at hlast
    | some t' =>
      simp only [hlt, Option.map_some', Option.some.injEq] at hlast
      have hid : t'.ID = t.ID := lastPut_key tokens (fun t => t.ID) t.ID t' hlt
      refine ⟨row, tokenMap t', hget, ?_, ?_, ?_⟩
      · rw [tableGet_putAll]
        simp only [documentPuts, lastPut_map tokens (fun t => t.ID) tokenMap, hlt,
          Option.map_some']
      · rw [← hlast]
        exact hid
      · rw [← hlast]
        exact docMirrorsRow_tokenMap t'

/-- Witness of the amended C10: a cycle whose batch reports token A twice, stamped 200
nanoseconds apart in the milliseconds 7 and 8, every write returning no error and every
index request answered with a 2xx status. -/
theorem syncPrices_index_mirrors_snapshot_to_millis_witness :
    FetchTopTokens mainWorker.CoinGecko feedTwiceA 10
      = .ok [tokALate, { tokA with UpdatedAt := { millis := 8, nanos := 100 } }] ∧
    (feedTwiceA.out 0).scylla = true ∧ (feedTwiceA.out 0).es = .indexed ∧
    (∀ i, i < [tokALate, { tokA with UpdatedAt := { millis := 8, nanos := 100 } }].length →
      writesOk (feedTwiceA.out i) ∧ esAccepted (feedTwiceA.out i).esStatus = true) ∧
    ∃ r, syncPrices mainWorker feedTwiceA emptyStores = some r ∧
      (∃ a b row doc,
        r.calls = a ++
          [StoreCall.insertToken row true, StoreCall.indexToken doc true,
           StoreCall.insertHistory tokALate.ID tokALate.UpdatedAt tokALate.CurrentPrice
             (feedTwiceA.out 0).history] ++ b ∧
        row.id = tokALate.ID ∧
        docMirrorsRow doc row ∧
        ∀ es status, IndexToken es doc .indexed status =
          some (if esAccepted status = true then tablePut es row.id doc else es, true)) ∧
      (∀ t ∈ [tokALate, { tokA with UpdatedAt := { millis := 8, nanos := 100 } }],
        ∃ row doc,
          tableGet r.stores.tokens t.ID = some row ∧
          tableGet r.stores.crypto_tokens t.ID = some doc ∧
          row.id = t.ID ∧
          docMirrorsRow doc row) :=
  ⟨rfl, rfl, rfl, fun _ _ => ⟨⟨rfl, rfl, rfl⟩, rfl⟩,
    (syncPrices_index_mirrors_snapshot_to_millis mainWorker feedTwiceA emptyStores
      [tokALate, { tokA with UpdatedAt := { millis := 8, nanos := 100 } }] rfl).elim
      (fun r h => ⟨r, h.1, h.2.1 0 (by decide) rfl rfl,
        h.2.2 (fun _ _ => ⟨⟨rfl, rfl, rfl⟩, rfl⟩)⟩)⟩

/-! ## C11: the worker loop -/

theorem runCycles_total (w : PriceWorker) (envs : List CycleEnv) (s : Stores) :
    ∃ rs, runCycles w envs s = some rs ∧ rs.length = envs.length := by
  induction envs generalizing s with
  | nil => exact ⟨[], rfl, rfl⟩
  | cons env envs ih =>
    obtain ⟨r, hr, _⟩ := syncPrices_calls w env s
    obtain ⟨rs, hrs, hlen⟩ := ih r.stores
    exact ⟨r :: rs, by simp [runCycles, hr, hrs], by simp [hlen]⟩

theorem selectLoop_stopped (w : PriceWorker) (events : List Event) (st : WorkerState)
    (h : st.phase = .stopped) : selectLoop w events st = some st := by
  induction events with
  | nil => rfl
  | cons e rest ih => simp [selectLoop, selectStep, h, ih]

theorem selectLoop_ticks (w : PriceWorker) (envs : List CycleEnv) (rest : List Event)
    (st : WorkerState) (h : st.phase = .idle) :
    ∃ rs, runCycles w envs st.stores = some rs ∧
      selectLoop w (envs.map Event.tick ++ rest) st =
        selectLoop w rest
          { st with stores := storesAfter st.stores rs, cycles := st.cycles ++ rs } := by
  induction envs generalizing st with
  | nil => exact ⟨[], rfl, by simp [storesAfter]⟩
  | cons env envs ih =>
    obtain ⟨r, hr, _⟩ := syncPrices_calls w env st.stores
    obtain ⟨rs, hrs, hloop⟩ :=
      ih { st with stores := r.stores, cycles := st.cycles ++ [r] } h
    refine ⟨r :: rs, by simp [runCycles, hr, hrs], ?_⟩
    simpa [selectLoop, selectStep, h, hr, storesAfter] using hloop

/-- C11, counterexample. A worker built with interval 0: `time.NewTicker` panics before the
startup sync, so `Start` runs no cycle at all, whatever events are waiting. -/
theorem Start_zero_interval_counterexample :
    Start (NewPriceWorker 0) (feedOf [cgA] 7 allOk) [] emptyStores = none ∧
    Start (NewPriceWorker 0) (feedOf [cgA] 7 allOk)
      [Event.tick (feedOf [cgA] 8 allOk), Event.done] emptyStores = none :=
  ⟨rfl, rfl⟩

/-- C11, amended. For a worker whose interval is positive, `Start` as a step function over
the events its `select` receives: one sync cycle runs at startup, before any event is
consumed. After the ticks `envs` the worker is idle and has run the startup cycle and one
cycle per tick, in order, each on the stores the previous one left. When a cancellation
follows, the worker stops with these same cycles and stores, whatever events `rest` come
after it: for n ticks followed by a cancellation exactly n + 1 cycles run. -/
theorem Start_ticks_then_cancel (w : PriceWorker) (env0 : CycleEnv) (envs : List CycleEnv)
    (rest : List Event) (s : Stores) (hpos : 0 < w.Interval) :
    ∃ r0 rs,
      syncPrices w env0 s = some r0 ∧
      Start w env0 [] s =
        some { phase := .idle, stores := r0.stores, cycles := [r0],
               log := [.started w.Interval] } ∧
      runCycles w (env0 :: envs) s = some rs ∧
      rs.head? = some r0 ∧
      rs.length = envs.length + 1 ∧
      Start w env0 (envs.map Event.tick) s =
        some { phase := .idle, stores := storesAfter s rs, cycles := rs,
               log := [.started w.Interval] } ∧
      Start w env0 (envs.map Event.tick ++ Event.done :: rest) s =
        some { phase := .stopped, stores := storesAfter s rs, cycles := rs,
               log := [.started w.Interval, .stopped] } := by
  have hnot : ¬ w.Interval ≤ 0 := Int.not_le.mpr hpos
  obtain ⟨r0, hr0, _⟩ := syncPrices_calls w env0 s
  obtain ⟨rs, hrs, hloop⟩ := selectLoop_ticks w envs (Event.done :: rest)
    { phase := .idle, stores := r0.stores, cycles := [r0], log := [.started w.Interval] } rfl
  obtain ⟨rs0, hrs0, hloop0⟩ := selectLoop_ticks w envs []
    { phase := .idle, stores := r0.stores, cycles := [r0], log := [.started w.Interval] } rfl
  obtain ⟨rs', hrs', hlen⟩ := runCycles_total w envs r0.stores
  have hsame : rs = rs' := Option.some.inj (hrs.symm.trans hrs')
  have hsame0 : rs0 = rs' := Option.some.inj (hrs0.symm.trans hrs')
  subst hsame
  subst hsame0
  refine ⟨r0, r0 :: rs0, hr0, by simp [Start, hnot, hr0, selectLoop],
    by simp [runCycles, hr0, hrs'], rfl, by simp [hlen], ?_, ?_⟩
  · simp only [List.append_nil] at hloop0
    simp [Start, hnot, hr0, hloop0, selectLoop, storesAfter]
  · simp [Start, hnot, hr0, hloop, selectLoop, selectStep, storesAfter, selectLoop_stopped]

/-- Witness of the amended C11: the worker started by `main` (interval one minute), one tick,
then a cancellation followed by a further tick. -/
theorem Start_ticks_then_cancel_witness :
    0 < mainWorker.Interval ∧
    ∃ r0 rs,
      syncPrices mainWorker (feedOf [cgA] 7 allOk) emptyStores = some r0 ∧
      Start mainWorker (feedOf [cgA] 7 allOk) [] emptyStores =
        some { phase := .idle, stores := r0.stores, cycles := [r0],
               log := [.started mainWorker.Interval] } ∧
      runCycles mainWorker (feedOf [cgA] 7 allOk :: [feedOf [cgA] 8 allOk]) emptyStores
        = some rs ∧
      rs.head? = some r0 ∧
      rs.length = [feedOf [cgA] 8 allOk].length + 1 ∧
      Start mainWorker (feedOf [cgA] 7 allOk) ([feedOf [cgA] 8 allOk].map Event.tick)
          emptyStores =
        some { phase := .idle, stores := storesAfter emptyStores rs, cycles := rs,
               log := [.started mainWorker.Interval] } ∧
      Start mainWorker (feedOf [cgA] 7 allOk)
          ([feedOf [cgA] 8 allOk].map Event.tick ++
            Event.done :: [Event.tick (feedOf [cgA] 9 allOk)]) emptyStores =
        some { phase := .stopped, stores := storesAfter emptyStores rs, cycles := rs,
               log := [.started mainWorker.Interval, .stopped] } :=
  ⟨by decide, Start_ticks_then_cancel mainWorker (feedOf [cgA] 7 allOk)
    [feedOf [cgA] 8 allOk] [Event.tick (feedOf [cgA] 9 allOk)] emptyStores (by decide)⟩

/-! ## C12: what `FetchTopTokens` returns -/

theorem FetchTopTokens_ok_iff (c : CoinGeckoClient) (env : CycleEnv) (limit : Int)
    (tokens : List Token) :
    FetchTopTokens c env limit = .ok tokens ↔
      ∃ body cgs, env.get (topTokensURL c.BaseURL limit) = .response 200 body false ∧
        env.unmarshal body = some cgs ∧ tokens = convertTokens env.now 0 cgs := by
  unfold FetchTopTokens
  cases hget : env.get (topTokensURL c.BaseURL limit) with
  | transportError => simp
  | response status body readErr =>
    by_cases hst : status = 200
    · cases readErr
      · cases hu : env.unmarshal body with
        | none => simp [hst, hu]
        | some cgs =>
          simp only [hst, hu]
          constructor
          · intro h
            exact ⟨body, cgs, rfl, hu, by simpa using h.symm⟩
          · rintro ⟨body', cgs', hb, hu', ht⟩
            injection hb with _ hb' _
            subst hb'
            rw [hu] at hu'
            injection hu' with hu''
            subst hu''
            simp [ht]
      · simp [hst]
    · constructor
      · intro h
        simp [hst] at h
      · rintro ⟨body', cgs', hb, _, _⟩
        injection hb with hs _ _
        exact absurd hs hst

/-- C12, counterexample. With limit 1 and an upstream that answers with the two entries A and
B, `FetchTopTokens` succeeds and returns two tokens. -/
theorem FetchTopTokens_length_counterexample :
    FetchTopTokens NewCoinGeckoClient (feedOf [cgA, cgB] 7 allOk) 1 = .ok [tokA, tokB] ∧
    ¬ (([tokA, tokB].length : Int) ≤ 1) :=
  ⟨rfl, by decide⟩

/-- C12, amended. For every limit and every upstream response, when `FetchTopTokens(limit)`
succeeds the sequence it returns has exactly as many tokens as the upstream response has
entries and keeps the order in which the upstream reported them: the k-th token carries the
id, symbol, name, price, market cap and volume of the k-th entry, stamped with the k-th clock
reading. Its length is at most limit whenever the upstream reported at most limit entries. -/
theorem FetchTopTokens_keeps_upstream_entries (c : CoinGeckoClient) (env : CycleEnv)
    (limit : Int) (tokens : List Token)
    (hfetch : FetchTopTokens c env limit = .ok tokens) :
    ∃ body cgs,
      env.get (topTokensURL c.BaseURL limit) = .response 200 body false ∧
      env.unmarshal body = some cgs ∧
      tokens.length = cgs.length ∧
      (∀ k : Nat, tokens[k]? =
        (cgs[k]?).map (fun cg =>
          ({ ID := cg.ID, Symbol := cg.Symbol, Name := cg.Name,
             CurrentPrice := cg.CurrentPrice, MarketCap := cg.MarketCap,
             Volume24h := cg.TotalVolume, UpdatedAt := env.now k } : Token))) ∧
      ((cgs.length : Int) ≤ limit → (tokens.length : Int) ≤ limit) := by
  obtain ⟨body, cgs, hget, hu, ht⟩ := (FetchTopTokens_ok_iff c env limit tokens).mp hfetch
  subst ht
  refine ⟨body, cgs, hget, hu, length_convertTokens _ _ _, ?_, ?_⟩
  · intro k
    rw [getElem?_convertTokens, Nat.zero_add]
  · intro h
    rw [length_convertTokens]
    exact h

/-- Witness of the amended C12: limit 10 and an upstream that answers with A, B and C. -/
theorem FetchTopTokens_keeps_upstream_entries_witness :
    FetchTopTokens NewCoinGeckoClient (feedOf [cgA, cgB, cgC] 7 allOk) 10
      = .ok [tokA, tokB, tokC] ∧
    ∃ body cgs,
      (feedOf [cgA, cgB, cgC] 7 allOk).get (topTokensURL NewCoinGeckoClient.BaseURL 10)
        = .response 200 body false ∧
      (feedOf [cgA, cgB, cgC] 7 allOk).unmarshal body = some cgs ∧
      [tokA, tokB, tokC].length = cgs.length ∧
      (∀ k : Nat, [tokA, tokB, tokC][k]? =
        (cgs[k]?).map (fun cg =>
          ({ ID := cg.ID, Symbol := cg.Symbol, Name := cg.Name,
             CurrentPrice := cg.CurrentPrice, MarketCap := cg.MarketCap,
             Volume24h := cg.TotalVolume,
             UpdatedAt := (feedOf [cgA, cgB, cgC] 7 allOk).now k } : Token))) ∧
      (cgs.length : Int) ≤ 10 ∧ (([tokA, tokB, tokC].length : Nat) : Int) ≤ 10 := by
  obtain ⟨body, cgs, hget, hu, hlen, hk, hle⟩ :=
    FetchTopTokens_keeps_upstream_entries NewCoinGeckoClient
      (feedOf [cgA, cgB, cgC] 7 allOk) 10 [tokA, tokB, tokC] rfl
  have hcgs : (cgs.length : Int) ≤ 10 := by
    rw [← hlen]
    decide
  exact ⟨rfl, body, cgs, hget, hu, hlen, hk, hcgs, hle hcgs⟩

/-! ## C13: the success count against upsert and index outcomes -/

theorem countPositions_le (n : Nat) (p : Nat → Bool) : countPositions n p ≤ n := by
  unfold countPositions
  exact (List.countP_le_length p).trans (by simp)

theorem countPositions_eq_iff (n : Nat) (p : Nat → Bool) :
    countPositions n p = n ↔ ∀ i, i < n → p i = true := by
  unfold countPositions
  have h : (List.range n).countP p = (List.range n).length ↔
      ∀ a ∈ List.range n, p a = true := List.countP_eq_length
  rw [List.length_range] at h
  rw [h]
  constructor
  · intro hall i hi
    exact hall i (List.mem_range.mpr hi)
  · intro hall a ha
    exact hall a (List.mem_range.mp ha)

theorem countPositions_congr (n : Nat) (p q : Nat → Bool)
    (h : ∀ i, i < n → p i = q i) : countPositions n p = countPositions n q := by
  unfold countPositions
  apply List.countP_congr
  intro a ha
  rw [h a (List.mem_range.mp ha)]

/-- C13. For every fetched batch and every pattern of store write outcomes, the success
count the cycle emits is the number of batch entries for which both the Record Store upsert
and the Index Store write succeeded; a cycle whose history appends have other outcomes
emits the same count. The count is never greater than the batch length, and it equals the
batch length exactly when no upsert and no index write failed. -/
theorem syncPrices_count_ignores_history (w : PriceWorker) (env env' : CycleEnv) (s s' : Stores)
    (tokens : List Token)
    (hfetch : FetchTopTokens w.CoinGecko env 10 = .ok tokens)
    (hfetch' : FetchTopTokens w.CoinGecko env' 10 = .ok tokens)
    (hsame : ∀ i, i < tokens.length →
      (env'.out i).scylla = (env.out i).scylla ∧ (env'.out i).es = (env.out i).es) :
    ∃ r r' n,
      syncPrices w env s = some r ∧ syncPrices w env' s' = some r' ∧
      n = countPositions tokens.length (upsertAndIndexOk env.out) ∧
      r.log.getLast? = some (.synced n tokens.length) ∧
      r'.log.getLast? = some (.synced n tokens.length) ∧
      n ≤ tokens.length ∧
      (n = tokens.length ↔
        ∀ i, i < tokens.length →
          (env.out i).scylla = true ∧ (env.out i).es = .indexed) := by
  refine ⟨_, _, _, syncPrices_of_fetch_ok w env s _ hfetch,
    syncPrices_of_fetch_ok w env' s' _ hfetch', rfl, ?_, ?_, countPositions_le _ _, ?_⟩
  · simp only [List.getLast?_concat]
    rw [loopCount_eq_countPositions]
  · simp only [List.getLast?_concat]
    rw [loopCount_eq_countPositions]
    rw [countPositions_congr tokens.length (upsertAndIndexOk env'.out)
      (upsertAndIndexOk env.out)]
    intro i hi
    obtain ⟨h1, h2⟩ := hsame i hi
    simp [upsertAndIndexOk, h1, h2]
  · rw [countPositions_eq_iff]
    constructor
    · intro h i hi
      have := h i hi
      simpa [upsertAndIndexOk] using this
    · intro h i hi
      obtain ⟨h1, h2⟩ := h i hi
      simp [upsertAndIndexOk, h1, h2]

/-- Witness of C13: the batch [A, B, C] with every history append failing, against the same
batch with every write succeeding; both cycles report 3/3. -/
theorem syncPrices_count_ignores_history_witness :
    FetchTopTokens mainWorker.CoinGecko (feedOf [cgA, cgB, cgC] 7 allOk) 10
      = .ok [tokA, tokB, tokC] ∧
    FetchTopTokens mainWorker.CoinGecko (feedOf [cgA, cgB, cgC] 7 historyFails) 10
      = .ok [tokA, tokB, tokC] ∧
    (∀ i, i < [tokA, tokB, tokC].length →
      (historyFails i).scylla = (allOk i).scylla ∧ (historyFails i).es = (allOk i).es) ∧
    ∃ r r' n,
      syncPrices mainWorker (feedOf [cgA, cgB, cgC] 7 allOk) emptyStores = some r ∧
      syncPrices mainWorker (feedOf [cgA, cgB, cgC] 7 historyFails) emptyStores = some r' ∧
      n = countPositions [tokA, tokB, tokC].length
        (upsertAndIndexOk (feedOf [cgA, cgB, cgC] 7 allOk).out) ∧
      r.log.getLast? = some (.synced n [tokA, tokB, tokC].length) ∧
      r'.log.getLast? = some (.synced n [tokA, tokB, tokC].length) ∧
      n ≤ [tokA, tokB, tokC].length ∧
      (n = [tokA, tokB, tokC].length ↔
        ∀ i, i < [tokA, tokB, tokC].length →
          ((feedOf [cgA, cgB, cgC] 7 allOk).out i).scylla = true ∧
          ((feedOf [cgA, cgB, cgC] 7 allOk).out i).es = .indexed) :=
  ⟨rfl, rfl, fun _ _ => ⟨rfl, rfl⟩,
    syncPrices_count_ignores_history mainWorker (feedOf [cgA, cgB, cgC] 7 allOk)
      (feedOf [cgA, cgB, cgC] 7 historyFails) emptyStores emptyStores [tokA, tokB, tokC]
      rfl rfl (fun _ _ => ⟨rfl, rfl⟩)⟩

end CryptoTracker
